import Mathlib

/-!
Verification development for the pytoon TOON codec (Python sources under
`src/python/pytoon`).  The Python code is shallowly embedded here: Python
strings become `List Char`, dictionaries become insertion-ordered association
lists, exceptions become `Except`.  All definitions are executable and are
translated clause-by-clause from the Python source files named in the doc
comments.
-/

namespace PyToon

/-- Python strings are modelled as lists of characters. -/
abbrev Str := List Char

/-- Characters stripped by Python `str.strip()` / counted by `str.isspace()`.
The source relies on `str.strip()`; the model covers the ASCII whitespace
set (the Unicode extras behave identically for every character class the
codec distinguishes). -/
def isPySpace (c : Char) : Bool :=
  c = ' ' || c = '\t' || c = '\n' || c = '\r' || c = '\x0b' || c = '\x0c'

/-- Python `str.lstrip()`. -/
def pyLStrip (s : Str) : Str := s.dropWhile isPySpace

/-- Python `str.rstrip()`. -/
def pyRStrip (s : Str) : Str := ((s.reverse).dropWhile isPySpace).reverse

/-- Python `str.strip()`. -/
def pyStrip (s : Str) : Str := pyRStrip (pyLStrip s)

/-- Python `str.split(sep)` with a one-character separator
(`''.split` gives `['']`). -/
def pySplitChar (sep : Char) : Str → List Str
  | [] => [[]]
  | c :: rest =>
    if c = sep then [] :: pySplitChar sep rest
    else
      match pySplitChar sep rest with
      | curr :: others => (c :: curr) :: others
      | [] => [[c]]

/-! Constants from `pytoon/constants.py`. -/

def LIST_ITEM_MARKER : Char := '-'
def COMMA : Char := ','
def PIPE : Char := '|'
def TAB : Char := '\t'
def DEFAULT_DELIMITER : Char := COMMA

def NULL_LITERAL : Str := ['n', 'u', 'l', 'l']
def TRUE_LITERAL : Str := ['t', 'r', 'u', 'e']
def FALSE_LITERAL : Str := ['f', 'a', 'l', 's', 'e']

/-- `pytoon/literal_utils.py::is_boolean_or_null_literal`. -/
def is_boolean_or_null_literal (t : Str) : Bool :=
  t = TRUE_LITERAL || t = FALSE_LITERAL || t = NULL_LITERAL

/-- ASCII decimal digit test (`\d` in the source's regexes). -/
def isDig (c : Char) : Bool := '0' ≤ c && c ≤ '9'

/-- Drop a (possibly empty) run of digits. -/
def dropDigits : Str → Str
  | [] => []
  | c :: rest => if isDig c then dropDigits rest else c :: rest

/-- Match one-or-more digits (`\d+`), returning the rest on success. -/
def matchDigits1 (s : Str) : Option Str :=
  match s with
  | [] => none
  | c :: rest => if isDig c then some (dropDigits rest) else none

/-- Matcher for the tail of `_NUMERIC_LIKE_RE` after the integer part:
optional `(?:\.\d+)?` then optional `(?:e[+-]?\d+)?` then end of string. -/
def numericLikeTail (s : Str) : Bool :=
  let expPart : Str → Bool := fun t =>
    match t with
    | [] => true
    | e :: r =>
      if e = 'e' || e = 'E' then
        let r2 : Str := match r with
          | c :: rr => if c = '+' || c = '-' then rr else c :: rr
          | [] => []
        match matchDigits1 r2 with
        | some [] => true
        | _ => false
      else false
  match s with
  | '.' :: r =>
    match matchDigits1 r with
    | some s3 => expPart s3
    | none => false
  | t => expPart t

/-- `pytoon/validation_utils.py::_NUMERIC_LIKE_RE`:
`^-?\d+(?:\.\d+)?(?:e[+-]?\d+)?$` (case-insensitive `e`). -/
def matchNumericLikeRe (s : Str) : Bool :=
  let s1 : Str := match s with
    | '-' :: r => r
    | t => t
  match matchDigits1 s1 with
  | some s2 => numericLikeTail s2
  | none => false

/-- `pytoon/validation_utils.py::_LEADING_ZERO_RE`: `^0\d+$`. -/
def matchLeadingZeroRe (s : Str) : Bool :=
  match s with
  | '0' :: rest =>
    (match matchDigits1 rest with
     | some [] => true
     | _ => false)
  | _ => false

/-- `pytoon/validation_utils.py::_is_numeric_like`. -/
def _is_numeric_like (s : Str) : Bool :=
  matchNumericLikeRe s || matchLeadingZeroRe s

/-- ASCII word character (`\w` of the source's regexes; the source compiles
them with `re.IGNORECASE` over str, the model covers the ASCII range). -/
def isWordChar (c : Char) : Bool :=
  ('a' ≤ c && c ≤ 'z') || ('A' ≤ c && c ≤ 'Z') || isDig c || c = '_'

/-- ASCII letter or underscore (`[A-Z_]` with `re.IGNORECASE`). -/
def isAlphaUnder (c : Char) : Bool :=
  ('a' ≤ c && c ≤ 'z') || ('A' ≤ c && c ≤ 'Z') || c = '_'

/-- `pytoon/validation_utils.py::is_valid_unquoted_key`:
regex `^[A-Z_][\w.]*$` (case-insensitive). -/
def is_valid_unquoted_key (key : Str) : Bool :=
  match key with
  | [] => false
  | c :: rest => isAlphaUnder c && rest.all (fun d => isWordChar d || d = '.')

/-- `pytoon/validation_utils.py::is_identifier_segment`:
regex `^[A-Z_]\w*$` (case-insensitive). -/
def is_identifier_segment (key : Str) : Bool :=
  match key with
  | [] => false
  | c :: rest => isAlphaUnder c && rest.all isWordChar

/-- `pytoon/validation_utils.py::is_safe_unquoted`. -/
def is_safe_unquoted (value : Str) (delimiter : Char) : Bool :=
  if value.isEmpty || value ≠ pyStrip value then false
  else if is_boolean_or_null_literal value || _is_numeric_like value then false
  else if value.contains ':' || value.contains '"' || value.contains '\\' then false
  else if value.contains '[' || value.contains ']' ||
          value.contains '{' || value.contains '}' then false
  else if value.contains '\n' || value.contains '\r' || value.contains '\t' then false
  else if value.contains delimiter then false
  else if value.head? = some LIST_ITEM_MARKER then false
  else true

/-! `pytoon/string_utils.py` -/

/-- One `str.replace` step with a single-character needle, as used by
`escape_string`. -/
def replaceChar (t : Char) (r : Str) : Str → Str
  | [] => []
  | c :: rest => (if c = t then r else [c]) ++ replaceChar t r rest

/-- `pytoon/string_utils.py::escape_string`: the five chained `replace`
calls (backslash first, then quote, newline, carriage return, tab). -/
def escape_string (s : Str) : Str :=
  replaceChar '\t' ['\\', 't']
    (replaceChar '\r' ['\\', 'r']
      (replaceChar '\n' ['\\', 'n']
        (replaceChar '"' ['\\', '"']
          (replaceChar '\\' ['\\', '\\'] s))))

/-- Per-character view of `escape_string` (used in proofs). -/
def escChar (c : Char) : Str :=
  if c = '\\' then ['\\', '\\']
  else if c = '"' then ['\\', '"']
  else if c = '\n' then ['\\', 'n']
  else if c = '\r' then ['\\', 'r']
  else if c = '\t' then ['\\', 't']
  else [c]

/-- Error kinds raised by the decoder-side Python code.  The source raises
`SyntaxError` (syntax and strict-indentation messages), `RangeError`
(count mismatches and trailing extras), `ReferenceError` (no content) and
`TypeError` (path-expansion conflicts); the model keeps one constructor
per distinct failure site. -/
inductive DecErr where
  | syntaxErr
  | indentationErr
  | countMismatch
  | trailingItems
  | blankLineInBody
  | pathConflict
  | noContent
  | indexErr
deriving Repr, DecidableEq

/-- `pytoon/string_utils.py::unescape_string` (the source tests
`char != BACKSLASH` and continues; here the backslash branch comes
first). -/
def unescape_string : Str → Except DecErr Str
  | [] => .ok []
  | c :: rest =>
    if c = '\\' then
      match rest with
      | [] => .error .syntaxErr
      | nxt :: rest2 =>
        let repl : Option Char :=
          if nxt = 'n' then some '\n'
          else if nxt = 't' then some '\t'
          else if nxt = 'r' then some '\r'
          else if nxt = '\\' then some '\\'
          else if nxt = '"' then some '"'
          else none
        match repl with
        | none => .error .syntaxErr
        | some ch =>
          match unescape_string rest2 with
          | .ok r => .ok (ch :: r)
          | .error e => .error e
    else
      match unescape_string rest with
      | .ok r => .ok (c :: r)
      | .error e => .error e

/-- `pytoon/string_utils.py::find_closing_quote` (index of the closing
quote scanning from `start + 1`, escape-aware; `-1` as `none`). -/
def findClosingQuoteAux (content : Str) (i : Nat) (fuel : Nat) : Option Nat :=
  match fuel with
  | 0 => none
  | fuel + 1 =>
    if h : i < content.length then
      let c := content.get ⟨i, h⟩
      if c = '\\' && i + 1 < content.length then
        findClosingQuoteAux content (i + 2) fuel
      else if c = '"' then some i
      else findClosingQuoteAux content (i + 1) fuel
    else none

def find_closing_quote (content : Str) (start : Nat) : Option Nat :=
  findClosingQuoteAux content (start + 1) (content.length + 1)

/-- `pytoon/string_utils.py::find_unquoted_char` (`-1` as `none`). -/
def findUnquotedCharAux (content : Str) (target : Char) (i : Nat)
    (inQuotes : Bool) (fuel : Nat) : Option Nat :=
  match fuel with
  | 0 => none
  | fuel + 1 =>
    if h : i < content.length then
      let c := content.get ⟨i, h⟩
      if c = '\\' && i + 1 < content.length && inQuotes then
        findUnquotedCharAux content target (i + 2) inQuotes fuel
      else if c = '"' then
        findUnquotedCharAux content target (i + 1) (!inQuotes) fuel
      else if c = target && !inQuotes then some i
      else findUnquotedCharAux content target (i + 1) inQuotes fuel
    else none

def find_unquoted_char (content : Str) (target : Char) (start : Nat := 0) : Option Nat :=
  findUnquotedCharAux content target start false (content.length + 1)

/-- Python `str.find(target, start)` (a `-1` result is `none`). -/
def findFrom (s : Str) (t : Char) (start : Nat) : Option Nat :=
  match (s.drop start).findIdx? (· = t) with
  | some j => some (start + j)
  | none => none

/-! Data model from `pytoon/types.py`. -/

structure ParsedLine where
  raw : Str
  depth : Nat
  indent : Nat
  content : Str
  line_number : Nat
deriving Repr, DecidableEq

structure BlankLineInfo where
  line_number : Nat
  indent : Nat
  depth : Nat
deriving Repr, DecidableEq

structure ArrayHeaderInfo where
  key : Option Str
  length : Nat
  delimiter : Char
  fields : Option (List Str)
deriving Repr, DecidableEq

inductive KeyFolding where
  | off
  | safe
deriving Repr, DecidableEq

inductive ExpandPaths where
  | off
  | safe
deriving Repr, DecidableEq

/-- `ResolvedEncodeOptions`; `flatten_depth` is a positive integer or
`float('inf')`, modelled as `Option Nat` with `none` for unbounded. -/
structure ResolvedEncodeOptions where
  indent : Nat
  delimiter : Char
  key_folding : KeyFolding
  flatten_depth : Option Nat
deriving Repr, DecidableEq

structure ResolvedDecodeOptions where
  indent : Nat
  strict : Bool
  expand_paths : ExpandPaths
deriving Repr, DecidableEq

/-- `pytoon/encode/__init__.py::resolve_encode_options` applied to the
default `EncodeOptions()`. -/
def defaultEncodeOptions : ResolvedEncodeOptions :=
  { indent := 2, delimiter := DEFAULT_DELIMITER, key_folding := .off, flatten_depth := none }

/-- `pytoon/decode/__init__.py::resolve_decode_options` applied to the
default `DecodeOptions()`. -/
def defaultDecodeOptions : ResolvedDecodeOptions :=
  { indent := 2, strict := true, expand_paths := .off }

/-- The Value Model (`JsonValue` in `pytoon/types.py`): primitives, ordered
arrays and insertion-ordered string-keyed objects.  Numbers are modelled by
the integers (host floats live outside the shallow embedding; normalization
maps non-finite floats to null and integral floats to `int` before the
encoder runs). -/
inductive Json where
  | null
  | bool (b : Bool)
  | num (n : Int)
  | str (s : Str)
  | arr (items : List Json)
  | obj (entries : List (Str × Json))

/- Structural size of a value (computable; used only to pick fuel). -/
mutual

def Json.size : Json → Nat
  | .arr items => 1 + Json.sizeList items
  | .obj entries => 1 + Json.sizeEntries entries
  | _ => 1

def Json.sizeList : List Json → Nat
  | [] => 0
  | x :: xs => Json.size x + Json.sizeList xs + 1

def Json.sizeEntries : List (Str × Json) → Nat
  | [] => 0
  | p :: rest => Json.size p.2 + Json.sizeEntries rest + 1

end

/-- Dictionary key during decoding: an ordinary string key or the transient
`QUOTED_KEY_MARKER` sentinel from `pytoon/decode/expand.py`. -/
inductive DKey where
  | str (s : Str)
  | marker
deriving Repr, DecidableEq

/-- Values built by the decoder.  Same shape as `Json` plus the marker
machinery: under the marker key the decoder stores a set of quoted key
names (`strset`).  Float-valued numeric tokens are carried abstractly as
their source text (`floatTok`); integer tokens use `num`. -/
inductive DJson where
  | null
  | bool (b : Bool)
  | num (n : Int)
  | floatTok (t : Str)
  | str (s : Str)
  | arr (items : List DJson)
  | obj (entries : List (DKey × DJson))
  | strset (keys : List Str)

/-! Line scanner, `pytoon/decode/scanner.py`. -/

/-- Count of leading spaces (the `while raw[indent] == SPACE` loop). -/
def countLeadingSpaces : Str → Nat
  | ' ' :: rest => countLeadingSpaces rest + 1
  | _ => 0

/-- Leading run of spaces and tabs (the strict-mode `leading_ws` loop). -/
def leadingWs : Str → Str
  | c :: rest => if c = ' ' || c = '\t' then c :: leadingWs rest else []
  | [] => []

/-- One iteration of the `to_parsed_lines` loop body for a single raw line. -/
def processLine (raw : Str) (line_number : Nat) (indent_size : Nat) (strict : Bool) :
    Except DecErr (ParsedLine ⊕ BlankLineInfo) :=
  let indent := countLeadingSpaces raw
  let content := raw.drop indent
  if pyStrip content = [] then
    let depth := if indent_size = 0 then 0 else indent / indent_size
    .ok (.inr { line_number := line_number, indent := indent, depth := depth })
  else if strict && (leadingWs raw).contains '\t' then .error .indentationErr
  else if strict && (indent_size ≠ 0 && indent % indent_size ≠ 0) then .error .indentationErr
  else
    let depth := if indent_size = 0 then 0 else indent / indent_size
    .ok (.inl { raw := raw, depth := depth, indent := indent,
                content := content, line_number := line_number })

/-- Fold of `processLine` over the split lines, 1-based numbering. -/
def scanLines (indent_size : Nat) (strict : Bool) :
    List Str → Nat → Except DecErr (List ParsedLine × List BlankLineInfo)
  | [], _ => .ok ([], [])
  | raw :: rest, n =>
    match processLine raw n indent_size strict with
    | .error e => .error e
    | .ok (.inl pl) =>
      match scanLines indent_size strict rest (n + 1) with
      | .error e => .error e
      | .ok (ps, bs) => .ok (pl :: ps, bs)
    | .ok (.inr bl) =>
      match scanLines indent_size strict rest (n + 1) with
      | .error e => .error e
      | .ok (ps, bs) => .ok (ps, bl :: bs)

/-- `pytoon/decode/scanner.py::to_parsed_lines`. -/
def to_parsed_lines (source : Str) (indent_size : Nat) (strict : Bool) :
    Except DecErr (List ParsedLine × List BlankLineInfo) :=
  if pyStrip source = [] then .ok ([], [])
  else scanLines indent_size strict (pySplitChar '\n' source) 1

/-! Number and token parsing, `pytoon/decode/parser.py` and
`pytoon/literal_utils.py`. -/

/-- Digits of a natural number, most significant first (decimal). -/
def digitChar (n : Nat) : Char := Char.ofNat ('0'.toNat + n)

def natToDecGo : Nat → Nat → Str
  | 0, _ => []
  | fuel + 1, n =>
    if n < 10 then [digitChar n]
    else natToDecGo fuel (n / 10) ++ [digitChar (n % 10)]

def natToDec (n : Nat) : Str := natToDecGo (n + 1) n

/-- Python `str(int)` — sign then decimal digits. -/
def intRepr (i : Int) : Str :=
  if i < 0 then '-' :: natToDec i.natAbs else natToDec i.natAbs

/-- Value of an all-digits string (caller checks the digit condition). -/
def digitsVal (s : Str) : Nat :=
  s.foldl (fun acc c => acc * 10 + (c.toNat - '0'.toNat)) 0

/-- Parse a non-empty all-digits string. -/
def parseNatDigits (s : Str) : Option Nat :=
  if s ≠ [] && s.all isDig then some (digitsVal s) else none

/-- Model of Python `int(str)` on the plain `[+-]? digits` spellings (the
source also tolerates surrounding whitespace and underscore separators,
which no formatted output ever contains). -/
def pyParseInt (s : Str) : Option Int :=
  match s with
  | [] => (parseNatDigits []).map (fun n => (n : Int))
  | c :: r =>
    if c = '-' then (parseNatDigits r).map (fun n => -(n : Int))
    else if c = '+' then (parseNatDigits r).map (fun n => (n : Int))
    else (parseNatDigits (c :: r)).map (fun n => (n : Int))

/-- Model of Python `float()` literal acceptance restricted to the decimal
grammar `[+-]? (digits [. digits?] | . digits) ([eE] [+-]? digits)?`; the
source also tolerates spellings (underscores, `infinity`, `nan`) that are
filtered out by the finiteness check or never produced by the encoder. -/
def floatAccepts (s : Str) : Bool :=
  let s1 : Str := match s with
    | c :: r => if c = '+' || c = '-' then r else c :: r
    | [] => []
  let afterMant : Option Str :=
    match s1 with
    | '.' :: r => matchDigits1 r
    | _ =>
      match matchDigits1 s1 with
      | some rest =>
        match rest with
        | '.' :: r2 => some (dropDigits r2)
        | t => some t
      | none => none
  match afterMant with
  | none => false
  | some t =>
    match t with
    | [] => true
    | e :: r =>
      if e = 'e' || e = 'E' then
        let r2 : Str := match r with
          | c :: rr => if c = '+' || c = '-' then rr else c :: rr
          | [] => []
        match matchDigits1 r2 with
        | some [] => true
        | _ => false
      else false

/-- `pytoon/literal_utils.py::is_numeric_literal`. -/
def is_numeric_literal (token : Str) : Bool :=
  match token with
  | [] => false
  | c :: rest =>
    if rest ≠ [] && c = '0' && rest.head? ≠ some '.' then false
    else floatAccepts (c :: rest)

/-- Whether a float literal denotes zero: every mantissa digit is `0`
(models the `value == -0.0` comparison in `parse_primitive_token`). -/
def floatTokIsZero (s : Str) : Bool :=
  let s1 : Str := match s with
    | c :: r => if c = '+' || c = '-' then r else c :: r
    | [] => []
  let mant := s1.takeWhile (fun c => c ≠ 'e' && c ≠ 'E')
  mant.all (fun c => !isDig c || c = '0')

/-- `pytoon/decode/parser.py::parse_string_literal`. -/
def parse_string_literal (token : Str) : Except DecErr Str :=
  let trimmed := pyStrip token
  if trimmed.head? ≠ some '"' then .ok trimmed
  else
    match find_closing_quote trimmed 0 with
    | none => .error .syntaxErr
    | some closing =>
      if closing ≠ trimmed.length - 1 then .error .syntaxErr
      else unescape_string ((trimmed.take closing).drop 1)

/-- `pytoon/decode/parser.py::parse_delimited_values` main loop. -/
def pdvGo (delimiter : Char) : Str → Bool → Bool → Str → List Str
  | [], _, _, current => [pyStrip current]
  | c :: rest, inQuotes, escapeNext, current =>
    if escapeNext then pdvGo delimiter rest inQuotes false (current ++ [c])
    else if c = '\\' && inQuotes then pdvGo delimiter rest inQuotes true (current ++ [c])
    else if c = '"' then pdvGo delimiter rest (!inQuotes) false (current ++ [c])
    else if c = delimiter && !inQuotes then
      pyStrip current :: pdvGo delimiter rest inQuotes false []
    else pdvGo delimiter rest inQuotes false (current ++ [c])

/-- `pytoon/decode/parser.py::parse_delimited_values`. -/
def parse_delimited_values (content : Str) (delimiter : Char) : List Str :=
  let values := pdvGo delimiter content false false []
  if values = [[]] then [] else values

/-- `pytoon/decode/parser.py::parse_primitive_token`. -/
def parse_primitive_token (token : Str) : Except DecErr DJson :=
  let trimmed := pyStrip token
  if trimmed = [] then .ok (.str [])
  else if trimmed.head? = some '"' then
    match parse_string_literal trimmed with
    | .ok s => .ok (.str s)
    | .error e => .error e
  else if is_boolean_or_null_literal trimmed then
    if trimmed = TRUE_LITERAL then .ok (.bool true)
    else if trimmed = FALSE_LITERAL then .ok (.bool false)
    else .ok .null
  else if is_numeric_literal trimmed then
    let floatLike := trimmed.contains '.' || trimmed.contains 'e' || trimmed.contains 'E'
    if floatLike then
      if floatTokIsZero trimmed then .ok (.num 0) else .ok (.floatTok trimmed)
    else
      match pyParseInt trimmed with
      | some v =>
        if v = 0 && trimmed.head? = some '-' then .ok (.num 0) else .ok (.num v)
      | none => .ok (.str trimmed)
  else .ok (.str trimmed)

/-- `pytoon/decode/parser.py::map_row_values_to_primitives`. -/
def map_row_values_to_primitives : List Str → Except DecErr (List DJson)
  | [] => .ok []
  | v :: rest =>
    match parse_primitive_token v with
    | .error e => .error e
    | .ok p =>
      match map_row_values_to_primitives rest with
      | .error e => .error e
      | .ok ps => .ok (p :: ps)

/-- `pytoon/decode/parser.py::parse_bracket_segment`; a raised
`ValueError` is `none`. -/
def parse_bracket_segment (segment : Str) (default_delimiter : Char) :
    Option (Nat × Char) :=
  let cd : Str × Char :=
    if segment.getLast? = some TAB then (segment.dropLast, TAB)
    else if segment.getLast? = some PIPE then (segment.dropLast, PIPE)
    else (segment, default_delimiter)
  match pyParseInt cd.1 with
  | none => none
  | some l => if l < 0 then none else some (l.toNat, cd.2)

/-- The `[parse_string_literal(field.strip()) for field in raw_fields if
field.strip()]` comprehension. -/
def parseFieldList : List Str → Except DecErr (List Str)
  | [] => .ok []
  | f :: rest =>
    if pyStrip f = [] then parseFieldList rest
    else
      match parse_string_literal (pyStrip f) with
      | .error e => .error e
      | .ok v =>
        match parseFieldList rest with
        | .error e => .error e
        | .ok vs => .ok (v :: vs)

/-- The `bracket_start` scan at the top of `parse_array_header_line`
(quoted-key handling then `content.find('[')`). -/
def headerBracketStart (content : Str) : Option Nat :=
  let trimmed := pyLStrip content
  if trimmed.head? = some '"' then
    match find_closing_quote trimmed 0 with
    | none => none
    | some closing =>
      let after_quote := trimmed.drop (closing + 1)
      if after_quote.head? ≠ some '[' then none
      else
        let leading_ws := content.length - trimmed.length
        let key_end_index := leading_ws + closing + 1
        findFrom content '[' key_end_index
  else findFrom content '[' 0

/-- The key block of `parse_array_header_line` (`content[:bracket_start]`
stripped, then quoted-literal parsing or `raw_key or None`). -/
def headerParseKey (content : Str) (bracket_start : Nat) :
    Except DecErr (Option Str) :=
  if bracket_start > 0 then
    let raw_key := pyStrip (content.take bracket_start)
    if raw_key.head? = some '"' then
      match parse_string_literal raw_key with
      | .ok k => .ok (some k)
      | .error e => .error e
    else .ok (if raw_key = [] then none else some raw_key)
  else .ok none

/-- `pytoon/decode/parser.py::parse_array_header_line`.  Returns `none`
where the Python returns `None` (no array header), an error where a
`SyntaxError` escapes. -/
def parse_array_header_line (content : Str) (default_delimiter : Char) :
    Except DecErr (Option (ArrayHeaderInfo × Option Str)) :=
  match headerBracketStart content with
  | none => .ok none
  | some bracket_start =>
    match findFrom content ']' bracket_start with
    | none => .ok none
    | some bracket_end =>
      let brace_start? := findFrom content '{' bracket_end
      let colon_after_brackets? := findFrom content ':' bracket_end
      let brace_end : Nat :=
        match brace_start? with
        | some bs =>
          if (match colon_after_brackets? with
              | none => true
              | some ci => bs < ci) then
            match findFrom content '}' bs with
            | some fbe => fbe + 1
            | none => bracket_end + 1
          else bracket_end + 1
        | none => bracket_end + 1
      match findFrom content ':' (max bracket_end brace_end) with
      | none => .ok none
      | some colon_index =>
        match headerParseKey content bracket_start with
        | .error e => .error e
        | .ok key =>
          let after_colon :=
            let a := pyStrip (content.drop (colon_index + 1))
            if a = [] then none else some a
          let bracket_content := (content.take bracket_end).drop (bracket_start + 1)
          match parse_bracket_segment bracket_content default_delimiter with
          | none => .ok none
          | some (length, delimiter) =>
            let fieldsE : Except DecErr (Option (List Str)) :=
              match brace_start? with
              | some bs =>
                if bs < colon_index then
                  match findFrom content '}' bs with
                  | some fbe =>
                    if fbe < colon_index then
                      let fields_content := (content.take fbe).drop (bs + 1)
                      match parseFieldList (parse_delimited_values fields_content delimiter) with
                      | .error e => .error e
                      | .ok fs => .ok (some fs)
                    else .ok none
                  | none => .ok none
                else .ok none
              | none => .ok none
            match fieldsE with
            | .error e => .error e
            | .ok fields =>
              .ok (some ({ key := key, length := length, delimiter := delimiter,
                           fields := fields }, after_colon))

/-- `pytoon/decode/parser.py::parse_unquoted_key`. -/
def parse_unquoted_key (content : Str) (start : Nat) : Except DecErr (Str × Nat) :=
  match findFrom content ':' start with
  | none => .error .syntaxErr
  | some pos => .ok (pyStrip ((content.take pos).drop start), pos + 1)

/-- `pytoon/decode/parser.py::parse_quoted_key`. -/
def parse_quoted_key (content : Str) (start : Nat) : Except DecErr (Str × Nat) :=
  match find_closing_quote content start with
  | none => .error .syntaxErr
  | some closing =>
    match unescape_string ((content.take closing).drop (start + 1)) with
    | .error e => .error e
    | .ok key =>
      let pos := closing + 1
      if h : pos < content.length then
        if content.get ⟨pos, h⟩ = ':' then .ok (key, pos + 1) else .error .syntaxErr
      else .error .syntaxErr

/-- `pytoon/decode/parser.py::parse_key_token`. -/
def parse_key_token (content : Str) (start : Nat) : Except DecErr (Str × Nat × Bool) :=
  if (content.drop start).head? = some '"' then
    match parse_quoted_key content start with
    | .ok (k, e) => .ok (k, e, true)
    | .error er => .error er
  else
    match parse_unquoted_key content start with
    | .ok (k, e) => .ok (k, e, false)
    | .error er => .error er

/-- `pytoon/decode/parser.py::is_array_header_after_hyphen`. -/
def is_array_header_after_hyphen (content : Str) : Bool :=
  (pyStrip content).head? = some '[' && (find_unquoted_char content ':' 0).isSome

/-- `pytoon/decode/parser.py::is_object_first_field_after_hyphen`. -/
def is_object_first_field_after_hyphen (content : Str) : Bool :=
  (find_unquoted_char content ':' 0).isSome

/-! Encoder primitives, `pytoon/encode/primitives.py`. -/

/-- Join with a single-character separator (`str.join`). -/
def joinSep (sep : Char) : List Str → Str
  | [] => []
  | [x] => x
  | x :: xs => x ++ sep :: joinSep sep xs

/-- `encode_string_literal`. -/
def encode_string_literal (value : Str) (delimiter : Char) : Str :=
  if is_safe_unquoted value delimiter then value
  else '"' :: escape_string value ++ ['"']

/-- `encode_key`. -/
def encode_key (key : Str) : Str :=
  if is_valid_unquoted_key key then key
  else '"' :: escape_string key ++ ['"']

/-- `_format_number_js` restricted to the integers of the value model:
`str(value)` (`isinstance(value, int)` branch). -/
def format_number_js (n : Int) : Str := intRepr n

/-- `encode_primitive` on the value model. -/
def encode_primitive (v : Json) (delimiter : Char) : Str :=
  match v with
  | .null => NULL_LITERAL
  | .bool b => if b then TRUE_LITERAL else FALSE_LITERAL
  | .num n => format_number_js n
  | .str s => encode_string_literal s delimiter
  | _ => []

/-- `encode_and_join_primitives`. -/
def encode_and_join_primitives (values : List Json) (delimiter : Char) : Str :=
  joinSep delimiter (values.map (fun v => encode_primitive v delimiter))

/-- `pytoon/encode/primitives.py::format_header`.  `if key:` and
`if fields:` treat `None` and empty alike. -/
def format_header (length : Nat) (key : Option Str) (fields : Option (List Str))
    (delimiter : Char) : Str :=
  let keyPart : Str :=
    match key with
    | some k => if k = [] then [] else encode_key k
    | none => []
  let suffix : Str := if delimiter ≠ DEFAULT_DELIMITER then [delimiter] else []
  let fieldsPart : Str :=
    match fields with
    | some fs =>
      if fs = [] then []
      else '{' :: joinSep delimiter (fs.map encode_key) ++ ['}']
    | none => []
  keyPart ++ '[' :: (natToDec length ++ suffix) ++ [']'] ++ fieldsPart ++ [':']

/-- `encode_inline_array_line`. -/
def encode_inline_array_line (values : List Json) (delimiter : Char)
    (prefixKey : Option Str) : Str :=
  let header := format_header values.length prefixKey none delimiter
  if values.isEmpty then header
  else header ++ ' ' :: encode_and_join_primitives values delimiter

/-! Value-model predicates, `pytoon/normalize.py`. -/

def Json.isPrim : Json → Bool
  | .null | .bool _ | .num _ | .str _ => true
  | _ => false

def is_array_of_primitives (items : List Json) : Bool := items.all Json.isPrim

def is_array_of_arrays (items : List Json) : Bool :=
  items.all fun v => match v with | .arr _ => true | _ => false

def is_array_of_objects (items : List Json) : Bool :=
  items.all fun v => match v with | .obj _ => true | _ => false

/-! Key folding, `pytoon/encode/folding.py`. -/

structure FoldResult where
  folded_key : Str
  remainder : Option Json
  leaf_value : Json
  segment_count : Nat

/-- `n < max_depth` where `max_depth` may be `float('inf')` (`none`). -/
def ltFD (n : Nat) : Option Nat → Bool
  | some m => n < m
  | none => true

/-- The `while len(segments) < max_depth` loop of
`_collect_single_key_chain`; returns the appended segments and the final
`current` value (fuelled; the chain is no longer than the value is deep). -/
def collectChainGo : Nat → Option Nat → Nat → Json → (List Str × Json)
  | 0, _, _, cur => ([], cur)
  | fuel + 1, maxDepth, segCount, .obj [(k, v)] =>
    if ltFD segCount maxDepth then
      let r := collectChainGo fuel maxDepth (segCount + 1) v
      (k :: r.1, r.2)
    else ([], .obj [(k, v)])
  | _ + 1, _, _, cur => ([], cur)

/-- `pytoon/encode/folding.py::_collect_single_key_chain`. -/
def _collect_single_key_chain (start_key : Str) (start_value : Json)
    (max_depth : Option Nat) : (List Str × Option Json × Json) :=
  let r := collectChainGo (Json.size start_value + 1) max_depth 1 start_value
  let segments := start_key :: r.1
  match r.2 with
  | .obj [] => (segments, none, .obj [])
  | .obj es => (segments, some (.obj es), .obj es)
  | cur => (segments, none, cur)

/-- Truthiness of the optional `siblings` / `root_literal_keys` /
`path_prefix` parameters (`None` and empty are both falsy). -/
def optTruthy : Option (List α) → Bool
  | none => false
  | some l => !l.isEmpty

/-- `pytoon/encode/folding.py::try_fold_key_chain`.  The `flatten_depth`
parameter is the already-resolved effective depth every caller passes
(`None` defaulting collapses to `options.flatten_depth` at call sites). -/
def try_fold_key_chain (key : Str) (value : Json) (siblings : List Str)
    (options : ResolvedEncodeOptions) (root_literal_keys : Option (List Str))
    ( path_prefix : Option Str) (flatten_depth : Option Nat) : Option FoldResult :=
  let isObj : Bool := match value with | .obj _ => true | _ => false
  if options.key_folding ≠ .safe || !isObj then none
  else
    let r := _collect_single_key_chain key value flatten_depth
    let segments := r.1
    if segments.length < 2 || !(segments.all is_identifier_segment) then none
    else
      let folded_key := joinSep '.' segments
      let absolute_path : Str :=
        match path_prefix with
        | some p => if p ≠ [] then p ++ '.' :: folded_key else folded_key
        | none => folded_key
      if siblings.contains folded_key then none
      else if optTruthy root_literal_keys &&
              (root_literal_keys.getD []).contains absolute_path then none
      else
        some { folded_key := folded_key, remainder := r.2.1,
               leaf_value := r.2.2, segment_count := segments.length }

/-! Encoder engine, `pytoon/encode/core.py` and `writer.py`.  The
`LineWriter` append-only accumulator is modelled by returning the list of
rendered lines; `push depth content` renders
`' ' * (indent * depth) ++ content`.  The mutual recursion is driven by a
fuel argument; the top-level entry supplies fuel large enough for any
actual input (every recursive call strictly shrinks the value). -/

def writerLine (indentSize depth : Nat) (content : Str) : Str :=
  List.replicate (indentSize * depth) ' ' ++ content

def writerListItem (indentSize depth : Nat) (content : Str) : Str :=
  writerLine indentSize depth ('-' :: ' ' :: content)

/-- `extract_tabular_header` and `is_tabular_array` from
`pytoon/encode/core.py`. -/
def rowHasKeyPrim (row : List (Str × Json)) (key : Str) : Bool :=
  match row.find? (fun p => p.1 = key) with
  | some p => p.2.isPrim
  | none => false

def is_tabular_array (rows : List (List (Str × Json))) (header : List Str) : Bool :=
  rows.all fun row =>
    ((row.map Prod.fst).dedup.length = header.length) &&
    header.all (rowHasKeyPrim row)

def extract_tabular_header (rows : List (List (Str × Json))) : Option (List Str) :=
  match rows with
  | [] => none
  | first_row :: _ =>
    let keys := first_row.map Prod.fst
    if keys = [] then none
    else if is_tabular_array rows keys then some keys else none

/-- `write_tabular_rows`. -/
def write_tabular_rows (rows : List (List (Str × Json))) (header : List Str)
    (indentSize depth : Nat) (delimiter : Char) : List Str :=
  rows.map fun row =>
    let values := header.map fun key =>
      match row.find? (fun p => p.1 = key) with
      | some p => p.2
      | none => .null
    writerLine indentSize depth (encode_and_join_primitives values delimiter)

mutual

/-- `encode_object` (fuelled). -/
def encodeObjectF (fuel : Nat) (value : List (Str × Json)) (depth : Nat)
    (options : ResolvedEncodeOptions) (root_literal_keys : Option (List Str))
    ( path_prefix : Option Str) (remaining_depth : Option (Option Nat)) : List Str :=
  match fuel with
  | 0 => []
  | fuel + 1 =>
    let keys := value.map Prod.fst
    let rlk : Option (List Str) :=
      if depth = 0 && root_literal_keys = none then
        some (keys.filter (fun k => k.contains '.'))
      else root_literal_keys
    let effective : Option Nat :=
      match remaining_depth with
      | some d => d
      | none => options.flatten_depth
    value.flatMap fun p =>
      encodeKeyValuePairF fuel p.1 p.2 depth options (some keys) rlk path_prefix
        (some effective)
termination_by structural fuel

/-- `encode_key_value_pair` (fuelled). -/
def encodeKeyValuePairF (fuel : Nat) (key : Str) (value : Json) (depth : Nat)
    (options : ResolvedEncodeOptions) (siblings : Option (List Str))
    (root_literal_keys : Option (List Str)) ( path_prefix : Option Str)
    (flatten_depth : Option (Option Nat)) : List Str :=
  match fuel with
  | 0 => []
  | fuel + 1 =>
    let current_path : Str :=
      match path_prefix with
      | some p => if p ≠ [] then p ++ '.' :: key else key
      | none => key
    let effective : Option Nat :=
      match flatten_depth with
      | some d => d
      | none => options.flatten_depth
    let foldBranch : Option (List Str) :=
      if options.key_folding = .safe && optTruthy siblings then
        match try_fold_key_chain key value (siblings.getD []) options
            root_literal_keys path_prefix effective with
        | some fold_result =>
          let folded_key := fold_result.folded_key
          let encoded_folded_key := encode_key folded_key
          match fold_result.remainder with
          | none =>
            (match fold_result.leaf_value with
             | .obj [] => some [writerLine options.indent depth (encoded_folded_key ++ [':'])]
             | .obj _ => none
             | .arr items =>
               some (encodeArrayF fuel (some folded_key) items depth options)
             | leaf =>
               some [writerLine options.indent depth
                 (encoded_folded_key ++ ':' :: ' ' :: encode_primitive leaf options.delimiter)])
          | some (.obj es) =>
            let remaining : Option Nat :=
              match effective with
              | some d => some (d - fold_result.segment_count)
              | none => none
            let folded_path : Str :=
              match path_prefix with
              | some p => if p ≠ [] then p ++ '.' :: folded_key else folded_key
              | none => folded_key
            some (writerLine options.indent depth (encoded_folded_key ++ [':']) ::
              encodeObjectF fuel es (depth + 1) options root_literal_keys
                (some folded_path) (some remaining))
          | some _ => none
        | none => none
      else none
    match foldBranch with
    | some lines => lines
    | none =>
      let encoded_key := encode_key key
      match value with
      | .arr items => encodeArrayF fuel (some key) items depth options
      | .obj es =>
        writerLine options.indent depth (encoded_key ++ [':']) ::
          (if es.isEmpty then []
           else encodeObjectF fuel es (depth + 1) options root_literal_keys
             (some current_path) (some effective))
      | prim =>
        [writerLine options.indent depth
          (encoded_key ++ ':' :: ' ' :: encode_primitive prim options.delimiter)]
termination_by structural fuel

/-- `encode_array` (fuelled). -/
def encodeArrayF (fuel : Nat) (key : Option Str) (value : List Json) (depth : Nat)
    (options : ResolvedEncodeOptions) : List Str :=
  match fuel with
  | 0 => []
  | fuel + 1 =>
    if value.isEmpty then
      [writerLine options.indent depth (format_header 0 key none options.delimiter)]
    else if is_array_of_primitives value then
      [writerLine options.indent depth
        (encode_inline_array_line value options.delimiter key)]
    else if is_array_of_arrays value &&
        value.all (fun item =>
          match item with
          | .arr sub => is_array_of_primitives sub
          | _ => false) then
      writerLine options.indent depth
          (format_header value.length key none options.delimiter) ::
        value.flatMap fun item =>
          match item with
          | .arr sub =>
            if is_array_of_primitives sub then
              [writerListItem options.indent (depth + 1)
                (encode_inline_array_line sub options.delimiter none)]
            else []
          | _ => []
    else if is_array_of_objects value then
      let rows := value.map fun item =>
        match item with
        | .obj es => es
        | _ => []
      match extract_tabular_header rows with
      | some header =>
        writerLine options.indent depth
            (format_header rows.length key (some header) options.delimiter) ::
          write_tabular_rows rows header options.indent (depth + 1) options.delimiter
      | none => encodeMixedArrayF fuel key value depth options
    else encodeMixedArrayF fuel key value depth options
termination_by structural fuel

/-- `encode_mixed_array_as_list_items` (fuelled). -/
def encodeMixedArrayF (fuel : Nat) (key : Option Str) (items : List Json)
    (depth : Nat) (options : ResolvedEncodeOptions) : List Str :=
  match fuel with
  | 0 => []
  | fuel + 1 =>
    writerLine options.indent depth
        (format_header items.length key none options.delimiter) ::
      items.flatMap fun item => encodeListItemValueF fuel item (depth + 1) options
termination_by structural fuel

/-- `encode_object_as_list_item` (fuelled). -/
def encodeObjectAsListItemF (fuel : Nat) (obj : List (Str × Json)) (depth : Nat)
    (options : ResolvedEncodeOptions) : List Str :=
  match fuel with
  | 0 => []
  | fuel + 1 =>
    match obj with
    | [] => [writerLine options.indent depth ['-']]
    | (first_key, first_value) :: restEntries =>
      let encoded_key := encode_key first_key
      let firstLines : List Str :=
        match first_value with
        | .arr items =>
          if is_array_of_primitives items then
            [writerListItem options.indent depth
              (encode_inline_array_line items options.delimiter (some first_key))]
          else if is_array_of_objects items then
            let rows := items.map fun item =>
              match item with
              | .obj es => es
              | _ => []
            match extract_tabular_header rows with
            | some header =>
              writerListItem options.indent depth
                  (format_header items.length (some first_key) (some header)
                    options.delimiter) ::
                write_tabular_rows rows header options.indent (depth + 1)
                  options.delimiter
            | none =>
              writerListItem options.indent depth
                  (encoded_key ++ '[' :: natToDec items.length ++ [']', ':']) ::
                items.flatMap fun item =>
                  match item with
                  | .obj es => encodeObjectAsListItemF fuel es (depth + 1) options
                  | _ => []
          else
            writerListItem options.indent depth
                (encoded_key ++ '[' :: natToDec items.length ++ [']', ':']) ::
              items.flatMap fun item => encodeListItemValueF fuel item (depth + 1) options
        | .obj es =>
          writerListItem options.indent depth (encoded_key ++ [':']) ::
            (if es.isEmpty then []
             else encodeObjectF fuel es (depth + 2) options none none none)
        | prim =>
          [writerListItem options.indent depth
            (encoded_key ++ ':' :: ' ' :: encode_primitive prim options.delimiter)]
      firstLines ++
        restEntries.flatMap fun p =>
          encodeKeyValuePairF fuel p.1 p.2 (depth + 1) options none none none none
termination_by structural fuel

/-- `encode_list_item_value` (fuelled). -/
def encodeListItemValueF (fuel : Nat) (value : Json) (depth : Nat)
    (options : ResolvedEncodeOptions) : List Str :=
  match fuel with
  | 0 => []
  | fuel + 1 =>
    match value with
    | .arr items =>
      if is_array_of_primitives items then
        [writerListItem options.indent depth
          (encode_inline_array_line items options.delimiter none)]
      else []
    | .obj es => encodeObjectAsListItemF fuel es depth options
    | prim =>
      [writerListItem options.indent depth (encode_primitive prim options.delimiter)]
termination_by structural fuel

end

/-- Fuel that strictly dominates the depth of any chain of recursive calls
of the encoder on a given value. -/
def encodeFuel (v : Json) : Nat := 8 * Json.size v + 64

/-- Join with newlines (`LineWriter.to_string`). -/
def joinLines (lines : List Str) : Str := joinSep '\n' lines

/-- `pytoon/encode/core.py::encode_value`. -/
def encode_value (value : Json) (options : ResolvedEncodeOptions) : Str :=
  match value with
  | .arr items => joinLines (encodeArrayF (encodeFuel value) none items 0 options)
  | .obj es => joinLines (encodeObjectF (encodeFuel value) es 0 options none none none)
  | prim => encode_primitive prim options.delimiter

/-! Decoder-side dictionary operations: Python `dict` assignment keeps the
original position on overwrite and appends fresh keys. -/

def dictSet (entries : List (DKey × DJson)) (k : DKey) (v : DJson) :
    List (DKey × DJson) :=
  if entries.any (fun p => p.1 = k) then
    entries.map (fun p => if p.1 = k then (k, v) else p)
  else entries ++ [(k, v)]

def dGet (entries : List (DKey × DJson)) (k : DKey) : Option DJson :=
  (entries.find? (fun p => p.1 = k)).map Prod.snd

def dHas (entries : List (DKey × DJson)) (k : DKey) : Bool :=
  entries.any (fun p => p.1 = k)

/-- Python `set.add`, modelled as append-if-absent. -/
def setAdd (s : List Str) (k : Str) : List Str :=
  if s.contains k then s else s ++ [k]

/-- `str.startswith(LIST_ITEM_PREFIX)` — the two-character prefix `"- "`. -/
def startsWithDashSpace : Str → Bool
  | '-' :: ' ' :: _ => true
  | _ => false

/-! Validation helpers, `pytoon/decode/validation.py`. -/

/-- `assert_expected_count`. -/
def assert_expected_count (actual expected : Nat)
    (options : ResolvedDecodeOptions) : Except DecErr Unit :=
  if options.strict && actual ≠ expected then .error .countMismatch else .ok ()

/-- `_is_data_row`. -/
def _is_data_row (content : Str) (delimiter : Char) : Bool :=
  match findFrom content ':' 0 with
  | none => true
  | some colon_pos =>
    match findFrom content delimiter 0 with
    | some delimiter_pos => delimiter_pos < colon_pos
    | none => false

/-- `validate_no_extra_list_items` (cursor peek becomes an index lookup). -/
def validate_no_extra_list_items (lines : List ParsedLine) (i : Nat)
    (item_depth : Nat) : Except DecErr Unit :=
  match lines[i]? with
  | some nl =>
    if nl.depth = item_depth && startsWithDashSpace nl.content then
      .error .trailingItems
    else .ok ()
  | none => .ok ()

/-- `validate_no_extra_tabular_rows`. -/
def validate_no_extra_tabular_rows (lines : List ParsedLine) (i : Nat)
    (row_depth : Nat) (header : ArrayHeaderInfo) : Except DecErr Unit :=
  match lines[i]? with
  | some nl =>
    if nl.depth = row_depth && !startsWithDashSpace nl.content then
      if _is_data_row nl.content header.delimiter then .error .trailingItems
      else .ok ()
    else .ok ()
  | none => .ok ()

/-- `validate_no_blank_lines_in_range`. -/
def validate_no_blank_lines_in_range (start_line end_line : Nat)
    (blank_lines : List BlankLineInfo) (strict : Bool) : Except DecErr Unit :=
  if !strict then .ok ()
  else if blank_lines.any
      (fun b => start_line < b.line_number && b.line_number < end_line) then
    .error .blankLineInBody
  else .ok ()

/-- `pytoon/decode/decoders.py::_is_key_value_line`. -/
def _is_key_value_line (line : ParsedLine) : Bool :=
  let content := line.content
  if content.head? = some '"' then
    match find_closing_quote content 0 with
    | none => false
    | some closing => (content.drop (closing + 1)).contains ':'
  else content.contains ':'

/-- `_decode_inline_primitive_array` (no cursor use). -/
def _decode_inline_primitive_array (header : ArrayHeaderInfo) (inline_values : Str)
    (options : ResolvedDecodeOptions) : Except DecErr (List DJson) :=
  if pyStrip inline_values = [] then
    match assert_expected_count 0 header.length options with
    | .error e => .error e
    | .ok _ => .ok []
  else
    match map_row_values_to_primitives
        (parse_delimited_values inline_values header.delimiter) with
    | .error e => .error e
    | .ok primitives =>
      match assert_expected_count primitives.length header.length options with
      | .error e => .error e
      | .ok _ => .ok primitives

/-- One tabular row: `obj[field] = primitives[idx]` for each field (a too
short row raises `IndexError` in the source, only reachable non-strict). -/
def buildRowObj (fields : List Str) (prims : List DJson) (idx : Nat)
    (acc : List (DKey × DJson)) : Except DecErr (List (DKey × DJson)) :=
  match fields with
  | [] => .ok acc
  | f :: rest =>
    match prims[idx]? with
    | some v => buildRowObj rest prims (idx + 1) (dictSet acc (.str f) v)
    | none => .error .indexErr

/-! Decoder engine, `pytoon/decode/decoders.py`.  The `LineCursor` becomes
the pair (immutable line list, index); every function returns the new
index.  The mutual recursion is fuelled; the top-level entry supplies fuel
exceeding the depth of any chain of calls on the given line list. -/

mutual

/-- `decode_value_from_lines` (fuelled). -/
def decodeValueFromLinesF (fuel : Nat) (lines : List ParsedLine)
    (blanks : List BlankLineInfo) (options : ResolvedDecodeOptions) :
    Except DecErr DJson :=
  match fuel with
  | 0 => .error .indexErr
  | fuel + 1 =>
    match lines[0]? with
    | none => .error .noContent
    | some first =>
      let arrayBranch : Except DecErr (Option DJson) :=
        if is_array_header_after_hyphen first.content then
          match parse_array_header_line first.content DEFAULT_DELIMITER with
          | .error e => .error e
          | .ok (some (header, inline_values)) =>
            match decodeArrayFromHeaderF fuel header inline_values lines blanks 1 0
                options with
            | .error e => .error e
            | .ok (v, _) => .ok (some v)
          | .ok none => .ok none
        else .ok none
      match arrayBranch with
      | .error e => .error e
      | .ok (some v) => .ok v
      | .ok none =>
        if lines.length = 1 && !_is_key_value_line first then
          parse_primitive_token (pyStrip first.content)
        else
          match decodeObjectF fuel lines blanks 0 0 options with
          | .error e => .error e
          | .ok (entries, _) => .ok (.obj entries)

/-- `_decode_object` (fuelled); the while loop is `decodeObjectLoopF`. -/
def decodeObjectF (fuel : Nat) (lines : List ParsedLine)
    (blanks : List BlankLineInfo) (i : Nat) (base_depth : Nat)
    (options : ResolvedDecodeOptions) :
    Except DecErr (List (DKey × DJson) × Nat) :=
  match fuel with
  | 0 => .error .indexErr
  | fuel + 1 => decodeObjectLoopF fuel lines blanks i base_depth none [] [] options
termination_by structural fuel

def decodeObjectLoopF (fuel : Nat) (lines : List ParsedLine)
    (blanks : List BlankLineInfo) (i : Nat) (base_depth : Nat)
    (computed_depth : Option Nat) (obj : List (DKey × DJson))
    (quoted_keys : List Str) (options : ResolvedDecodeOptions) :
    Except DecErr (List (DKey × DJson) × Nat) :=
  match fuel with
  | 0 => .error .indexErr
  | fuel + 1 =>
    let finish : List (DKey × DJson) :=
      if quoted_keys.isEmpty then obj
      else dictSet obj .marker (.strset quoted_keys)
    match lines[i]? with
    | none => .ok (finish, i)
    | some line =>
      if line.depth < base_depth then .ok (finish, i)
      else
        let computed : Nat :=
          match computed_depth with
          | none => line.depth
          | some d => d
        if line.depth = computed then
          match decodeKeyValueF fuel line.content lines blanks (i + 1) computed
              options with
          | .error e => .error e
          | .ok (key, value, _, is_quoted, i2) =>
            let obj2 := dictSet obj (.str key) value
            let quoted2 :=
              if is_quoted && key.contains '.' then setAdd quoted_keys key
              else quoted_keys
            decodeObjectLoopF fuel lines blanks i2 base_depth (some computed) obj2
              quoted2 options
        else .ok (finish, i)
termination_by structural fuel

/-- `_decode_key_value` (fuelled): returns (key, value, follow depth,
was-quoted, new index). -/
def decodeKeyValueF (fuel : Nat) (content : Str) (lines : List ParsedLine)
    (blanks : List BlankLineInfo) (i : Nat) (base_depth : Nat)
    (options : ResolvedDecodeOptions) :
    Except DecErr (Str × DJson × Nat × Bool × Nat) :=
  match fuel with
  | 0 => .error .indexErr
  | fuel + 1 =>
    match parse_array_header_line content DEFAULT_DELIMITER with
    | .error e => .error e
    | .ok header_info =>
      let keyedHeader : Option (ArrayHeaderInfo × Option Str) :=
        match header_info with
        | some (header, inline) =>
          match header.key with
          | some k => if k.isEmpty then none else some (header, inline)
          | none => none
        | none => none
      match keyedHeader with
      | some (header, inline_values) =>
        match decodeArrayFromHeaderF fuel header inline_values lines blanks i
            base_depth options with
        | .error e => .error e
        | .ok (decoded, i2) =>
          .ok (header.key.getD [], decoded, base_depth + 1, false, i2)
      | none =>
        match parse_key_token content 0 with
        | .error e => .error e
        | .ok (key, endPos, is_quoted) =>
          let rest := pyStrip (content.drop endPos)
          if rest.isEmpty then
            match lines[i]? with
            | some next_line =>
              if next_line.depth > base_depth then
                match decodeObjectF fuel lines blanks i (base_depth + 1) options with
                | .error e => .error e
                | .ok (nested, i2) =>
                  .ok (key, .obj nested, base_depth + 1, is_quoted, i2)
              else .ok (key, .obj [], base_depth + 1, is_quoted, i)
            | none => .ok (key, .obj [], base_depth + 1, is_quoted, i)
          else
            match parse_primitive_token rest with
            | .error e => .error e
            | .ok prim => .ok (key, prim, base_depth + 1, is_quoted, i)
termination_by structural fuel

/-- `decode_array_from_header` (fuelled). -/
def decodeArrayFromHeaderF (fuel : Nat) (header : ArrayHeaderInfo)
    (inline_values : Option Str) (lines : List ParsedLine)
    (blanks : List BlankLineInfo) (i : Nat) (base_depth : Nat)
    (options : ResolvedDecodeOptions) : Except DecErr (DJson × Nat) :=
  match fuel with
  | 0 => .error .indexErr
  | fuel + 1 =>
    match inline_values with
    | some inline =>
      match _decode_inline_primitive_array header inline options with
      | .error e => .error e
      | .ok prims => .ok (.arr prims, i)
    | none =>
      match header.fields with
      | some fields =>
        if fields.isEmpty then decodeListArrayF fuel header lines blanks i base_depth options
        else decodeTabularArrayF fuel header fields lines blanks i base_depth options
      | none => decodeListArrayF fuel header lines blanks i base_depth options
termination_by structural fuel

/-- `_decode_list_array` (fuelled); the while loop is `decodeListLoopF`. -/
def decodeListArrayF (fuel : Nat) (header : ArrayHeaderInfo)
    (lines : List ParsedLine) (blanks : List BlankLineInfo) (i : Nat)
    (base_depth : Nat) (options : ResolvedDecodeOptions) :
    Except DecErr (DJson × Nat) :=
  match fuel with
  | 0 => .error .indexErr
  | fuel + 1 =>
    let item_depth := base_depth + 1
    match decodeListLoopF fuel header lines blanks i item_depth [] none none
        options with
    | .error e => .error e
    | .ok (items, start_line, end_line, i2) =>
      match assert_expected_count items.length header.length options with
      | .error e => .error e
      | .ok _ =>
        let blankCheck : Except DecErr Unit :=
          match start_line, end_line with
          | some s, some e =>
            if options.strict then
              validate_no_blank_lines_in_range s e blanks options.strict
            else .ok ()
          | _, _ => .ok ()
        match blankCheck with
        | .error e => .error e
        | .ok _ =>
          if options.strict then
            match validate_no_extra_list_items lines i2 item_depth with
            | .error e => .error e
            | .ok _ => .ok (.arr items, i2)
          else .ok (.arr items, i2)
termination_by structural fuel

def decodeListLoopF (fuel : Nat) (header : ArrayHeaderInfo)
    (lines : List ParsedLine) (blanks : List BlankLineInfo) (i : Nat)
    (item_depth : Nat) (items : List DJson) (start_line end_line : Option Nat)
    (options : ResolvedDecodeOptions) :
    Except DecErr (List DJson × Option Nat × Option Nat × Nat) :=
  match fuel with
  | 0 => .error .indexErr
  | fuel + 1 =>
    if items.length < header.length then
      match lines[i]? with
      | none => .ok (items, start_line, end_line, i)
      | some line =>
        if line.depth < item_depth then .ok (items, start_line, end_line, i)
        else
          let is_list_item :=
            startsWithDashSpace line.content || line.content = ['-']
          if line.depth = item_depth && is_list_item then
            let start2 :=
              match start_line with
              | none => some line.line_number
              | some s => some s
            match decodeListItemF fuel lines blanks i item_depth options with
            | .error e => .error e
            | .ok (item, i2) =>
              let end2 : Option Nat :=
                match (if i2 = 0 then none else lines[i2 - 1]?) with
                | some cur => some cur.line_number
                | none => some line.line_number
              decodeListLoopF fuel header lines blanks i2 item_depth
                (items ++ [item]) start2 end2 options
          else .ok (items, start_line, end_line, i)
    else .ok (items, start_line, end_line, i)
termination_by structural fuel

/-- `_decode_tabular_array` (fuelled); the while loop is
`decodeTabularLoopF`. -/
def decodeTabularArrayF (fuel : Nat) (header : ArrayHeaderInfo)
    (fields : List Str) (lines : List ParsedLine)
    (blanks : List BlankLineInfo) (i : Nat) (base_depth : Nat)
    (options : ResolvedDecodeOptions) : Except DecErr (DJson × Nat) :=
  match fuel with
  | 0 => .error .indexErr
  | fuel + 1 =>
    let row_depth := base_depth + 1
    match decodeTabularLoopF fuel header fields lines blanks i row_depth [] none
        none options with
    | .error e => .error e
    | .ok (objects, start_line, end_line, i2) =>
      match assert_expected_count objects.length header.length options with
      | .error e => .error e
      | .ok _ =>
        let blankCheck : Except DecErr Unit :=
          match start_line, end_line with
          | some s, some e =>
            if options.strict then
              validate_no_blank_lines_in_range s e blanks options.strict
            else .ok ()
          | _, _ => .ok ()
        match blankCheck with
        | .error e => .error e
        | .ok _ =>
          if options.strict then
            match validate_no_extra_tabular_rows lines i2 row_depth header with
            | .error e => .error e
            | .ok _ => .ok (.arr objects, i2)
          else .ok (.arr objects, i2)

def decodeTabularLoopF (fuel : Nat) (header : ArrayHeaderInfo)
    (fields : List Str) (lines : List ParsedLine)
    (blanks : List BlankLineInfo) (i : Nat) (row_depth : Nat)
    (objects : List DJson) (start_line end_line : Option Nat)
    (options : ResolvedDecodeOptions) :
    Except DecErr (List DJson × Option Nat × Option Nat × Nat) :=
  match fuel with
  | 0 => .error .indexErr
  | fuel + 1 =>
    if objects.length < header.length then
      match lines[i]? with
      | none => .ok (objects, start_line, end_line, i)
      | some line =>
        if line.depth < row_depth then .ok (objects, start_line, end_line, i)
        else if line.depth = row_depth then
          let start2 :=
            match start_line with
            | none => some line.line_number
            | some s => some s
          let values := parse_delimited_values line.content header.delimiter
          match assert_expected_count values.length fields.length options with
          | .error e => .error e
          | .ok _ =>
            match map_row_values_to_primitives values with
            | .error e => .error e
            | .ok primitives =>
              match buildRowObj fields primitives 0 [] with
              | .error e => .error e
              | .ok rowObj =>
                decodeTabularLoopF fuel header fields lines blanks (i + 1)
                  row_depth (objects ++ [.obj rowObj]) start2
                  (some line.line_number) options
        else .ok (objects, start_line, end_line, i)
    else .ok (objects, start_line, end_line, i)
termination_by structural fuel

/-- `_decode_list_item` (fuelled). -/
def decodeListItemF (fuel : Nat) (lines : List ParsedLine)
    (blanks : List BlankLineInfo) (i : Nat) (base_depth : Nat)
    (options : ResolvedDecodeOptions) : Except DecErr (DJson × Nat) :=
  match fuel with
  | 0 => .error .indexErr
  | fuel + 1 =>
    match lines[i]? with
    | none => .error .noContent
    | some line =>
      let i2 := i + 1
      if line.content = ['-'] then .ok (.obj [], i2)
      else if !startsWithDashSpace line.content then .error .syntaxErr
      else
        let after_hyphen := line.content.drop 2
        if pyStrip after_hyphen = [] then .ok (.obj [], i2)
        else
          let headerBranch : Except DecErr (Option (DJson × Nat)) :=
            if is_array_header_after_hyphen after_hyphen then
              match parse_array_header_line after_hyphen DEFAULT_DELIMITER with
              | .error e => .error e
              | .ok (some (header, inline_values)) =>
                match decodeArrayFromHeaderF fuel header inline_values lines
                    blanks i2 base_depth options with
                | .error e => .error e
                | .ok r => .ok (some r)
              | .ok none => .ok none
            else .ok none
          match headerBranch with
          | .error e => .error e
          | .ok (some r) => .ok r
          | .ok none =>
            if is_object_first_field_after_hyphen after_hyphen then
              decodeObjectFromListItemF fuel line lines blanks i2 base_depth
                options
            else
              match parse_primitive_token after_hyphen with
              | .error e => .error e
              | .ok prim => .ok (prim, i2)
termination_by structural fuel

/-- `_decode_object_from_list_item` (fuelled); the trailing-fields while
loop is `decodeObjectFromListItemLoopF`. -/
def decodeObjectFromListItemF (fuel : Nat) (first_line : ParsedLine)
    (lines : List ParsedLine) (blanks : List BlankLineInfo) (i : Nat)
    (base_depth : Nat) (options : ResolvedDecodeOptions) :
    Except DecErr (DJson × Nat) :=
  match fuel with
  | 0 => .error .indexErr
  | fuel + 1 =>
    let after_hyphen := first_line.content.drop 2
    match decodeKeyValueF fuel after_hyphen lines blanks i base_depth options with
    | .error e => .error e
    | .ok (key, value, follow_depth, is_quoted, i2) =>
      let obj : List (DKey × DJson) := [(.str key, value)]
      let quoted : List Str :=
        if is_quoted && key.contains '.' then [key] else []
      decodeObjectFromListItemLoopF fuel lines blanks i2 follow_depth obj quoted
        options
termination_by structural fuel

def decodeObjectFromListItemLoopF (fuel : Nat) (lines : List ParsedLine)
    (blanks : List BlankLineInfo) (i : Nat) (follow_depth : Nat)
    (obj : List (DKey × DJson)) (quoted_keys : List Str)
    (options : ResolvedDecodeOptions) : Except DecErr (DJson × Nat) :=
  match fuel with
  | 0 => .error .indexErr
  | fuel + 1 =>
    let finish : List (DKey × DJson) :=
      if quoted_keys.isEmpty then obj
      else dictSet obj .marker (.strset quoted_keys)
    match lines[i]? with
    | none => .ok (.obj finish, i)
    | some line =>
      if line.depth < follow_depth then .ok (.obj finish, i)
      else if line.depth = follow_depth && !startsWithDashSpace line.content then
        match decodeKeyValueF fuel line.content lines blanks (i + 1) follow_depth
            options with
        | .error e => .error e
        | .ok (k, v, _, k_is_quoted, i2) =>
          let obj2 := dictSet obj (.str k) v
          let quoted2 :=
            if k_is_quoted && k.contains '.' then setAdd quoted_keys k
            else quoted_keys
          decodeObjectFromListItemLoopF fuel lines blanks i2 follow_depth obj2
            quoted2 options
      else .ok (.obj finish, i)
termination_by structural fuel

end

/-- Fuel dominating the call depth of the decoder on a given line list. -/
def decodeFuel (lines : List ParsedLine) : Nat := 64 * (lines.length + 2)

/- Structural size of a decoded value (computable; used only for fuel). -/
mutual

def DJson.size : DJson → Nat
  | .arr items => 1 + DJson.sizeList items
  | .obj entries => 1 + DJson.sizeEntries entries
  | .str s => 1 + s.length
  | .floatTok t => 1 + t.length
  | .strset ks => 1 + ks.length
  | _ => 1

def DJson.sizeList : List DJson → Nat
  | [] => 0
  | x :: xs => DJson.size x + DJson.sizeList xs + 1

def DJson.sizeEntries : List (DKey × DJson) → Nat
  | [] => 0
  | p :: rest =>
    (match p.1 with
     | .str s => s.length
     | .marker => 0) + DJson.size p.2 + DJson.sizeEntries rest + 2

end

/-! Path expansion, `pytoon/decode/expand.py`.  Imperative dict mutation
becomes rebuild-and-write-back; the mutual recursion is fuelled (fuel
bounds call depth; the top-level entry supplies more than enough). -/

mutual

/-- `expand_paths_safe` (fuelled). -/
def expandF (fuel : Nat) (value : DJson) (strict : Bool) : Except DecErr DJson :=
  match fuel with
  | 0 => .ok value
  | fuel + 1 =>
    match value with
    | .arr items =>
      match expandListF fuel items strict with
      | .error e => .error e
      | .ok l => .ok (.arr l)
    | .obj entries =>
      let quoted : Option (List Str) :=
        match dGet entries .marker with
        | some (.strset ks) => some ks
        | _ => none
      let rest := entries.filter (fun p => p.1 ≠ DKey.marker)
      match expandEntriesF fuel rest quoted [] strict with
      | .error e => .error e
      | .ok ex => .ok (.obj ex)
    | v => .ok v
termination_by structural fuel

def expandListF (fuel : Nat) (items : List DJson) (strict : Bool) :
    Except DecErr (List DJson) :=
  match fuel with
  | 0 => .ok items
  | fuel + 1 =>
    match items with
    | [] => .ok []
    | x :: xs =>
      match expandF fuel x strict with
      | .error e => .error e
      | .ok x2 =>
        match expandListF fuel xs strict with
        | .error e => .error e
        | .ok xs2 => .ok (x2 :: xs2)
termination_by structural fuel

/-- The `for key, raw_val in value.items()` loop of `expand_paths_safe`. -/
def expandEntriesF (fuel : Nat) (todo : List (DKey × DJson))
    (quoted : Option (List Str)) (expanded : List (DKey × DJson))
    (strict : Bool) : Except DecErr (List (DKey × DJson)) :=
  match fuel with
  | 0 => .ok expanded
  | fuel + 1 =>
    match todo with
    | [] => .ok expanded
    | (.marker, _) :: rest => expandEntriesF fuel rest quoted expanded strict
    | (.str key, raw_val) :: rest =>
      let is_quoted : Bool :=
        match quoted with
        | some qs => qs.contains key
        | none => false
      if key.contains '.' && !is_quoted &&
          (pySplitChar '.' key).all is_identifier_segment then
        match expandF fuel raw_val strict with
        | .error e => .error e
        | .ok ev =>
          match insertPathSafeF fuel expanded (pySplitChar '.' key) ev strict with
          | .error e => .error e
          | .ok expanded2 => expandEntriesF fuel rest quoted expanded2 strict
      else
        match expandF fuel raw_val strict with
        | .error e => .error e
        | .ok ev =>
          if dHas expanded (.str key) then
            match mergeResolveF fuel expanded (.str key) ev strict with
            | .error e => .error e
            | .ok expanded2 => expandEntriesF fuel rest quoted expanded2 strict
          else expandEntriesF fuel rest quoted (expanded ++ [(.str key, ev)]) strict
termination_by structural fuel

/-- `insert_path_safe` (fuelled).  `current.get(segment)` is `None` both
for a missing key and for an explicit null value, so both take the
create-a-fresh-object branch. -/
def insertPathSafeF (fuel : Nat) (target : List (DKey × DJson))
    (segments : List Str) (value : DJson) (strict : Bool) :
    Except DecErr (List (DKey × DJson)) :=
  match fuel with
  | 0 => .ok target
  | fuel + 1 =>
    match segments with
    | [] => .ok target
    | [last] =>
      if dHas target (.str last) then mergeResolveF fuel target (.str last) value strict
      else .ok (target ++ [(.str last, value)])
    | seg :: rest =>
      let recurseInto : List (DKey × DJson) → Except DecErr (List (DKey × DJson)) :=
        fun child =>
          match insertPathSafeF fuel child rest value strict with
          | .error e => .error e
          | .ok child2 => .ok (dictSet target (.str seg) (.obj child2))
      match dGet target (.str seg) with
      | none => recurseInto []
      | some .null => recurseInto []
      | some (.obj es) => recurseInto es
      | some _ =>
        if strict then .error .pathConflict else recurseInto []
termination_by structural fuel

/-- `merge_objects_or_resolve` (fuelled). -/
def mergeResolveF (fuel : Nat) (target : List (DKey × DJson)) (key : DKey)
    (value : DJson) (strict : Bool) : Except DecErr (List (DKey × DJson)) :=
  match fuel with
  | 0 => .ok target
  | fuel + 1 =>
    match dGet target key with
    | none => .error .indexErr
    | some existing =>
      match existing, value with
      | .obj es, .obj vs =>
        match mergeObjectsF fuel es vs strict with
        | .error e => .error e
        | .ok merged => .ok (dictSet target key (.obj merged))
      | _, _ =>
        if strict then .error .pathConflict
        else .ok (dictSet target key value)
termination_by structural fuel

/-- `merge_objects` (fuelled). -/
def mergeObjectsF (fuel : Nat) (target source : List (DKey × DJson))
    (strict : Bool) : Except DecErr (List (DKey × DJson)) :=
  match fuel with
  | 0 => .ok target
  | fuel + 1 =>
    match source with
    | [] => .ok target
    | (k, v) :: rest =>
      if dHas target k then
        match mergeResolveF fuel target k v strict with
        | .error e => .error e
        | .ok t2 => mergeObjectsF fuel t2 rest strict
      else mergeObjectsF fuel (target ++ [(k, v)]) rest strict
termination_by structural fuel

end

/-- `pytoon/decode/expand.py::expand_paths_safe` with adequate fuel. -/
def expand_paths_safe (value : DJson) (strict : Bool) : Except DecErr DJson :=
  expandF (4 * DJson.size value + 64) value strict

/-! `pytoon/decode/__init__.py::_strip_metadata`: remove every
`QUOTED_KEY_MARKER` entry and recurse through string-keyed children and
list elements (after the marker entries are removed, every remaining key
is a string key). -/

mutual

def strip_metadata : DJson → DJson
  | .arr items => .arr (stripList items)
  | .obj entries => .obj (stripEntries entries)
  | v => v

def stripList : List DJson → List DJson
  | [] => []
  | x :: xs => strip_metadata x :: stripList xs

def stripEntries : List (DKey × DJson) → List (DKey × DJson)
  | [] => []
  | (k, v) :: rest =>
    match k with
    | .marker => stripEntries rest
    | .str s => (.str s, strip_metadata v) :: stripEntries rest

end

/-- `pytoon/decode/__init__.py::decode` on resolved options. -/
def decode (source : Str) (options : ResolvedDecodeOptions) :
    Except DecErr DJson :=
  match to_parsed_lines source options.indent options.strict with
  | .error e => .error e
  | .ok (lines, blanks) =>
    match decodeValueFromLinesF (decodeFuel lines) lines blanks options with
    | .error e => .error e
    | .ok value =>
      match (if options.expand_paths = .safe then expand_paths_safe value options.strict
             else .ok value) with
      | .error e => .error e
      | .ok v2 => .ok (strip_metadata v2)

/-! Statement-level helpers. -/

/- Every object anywhere inside the value has only string keys. -/
mutual

def allStringKeys : DJson → Bool
  | .arr items => allStringKeysList items
  | .obj entries => allStringKeysEntries entries
  | _ => true

def allStringKeysList : List DJson → Bool
  | [] => true
  | x :: xs => allStringKeys x && allStringKeysList xs

def allStringKeysEntries : List (DKey × DJson) → Bool
  | [] => true
  | (k, v) :: rest =>
    (match k with
     | .str _ => true
     | .marker => false) && allStringKeys v && allStringKeysEntries rest

end

/- The canonical embedding of an encoder-side value into the decoder-side
value type (no markers, no float tokens). -/
mutual

def jsonToD : Json → DJson
  | .null => .null
  | .bool b => .bool b
  | .num n => .num n
  | .str s => .str s
  | .arr items => .arr (jsonToDList items)
  | .obj es => .obj (jsonToDEntries es)

def jsonToDList : List Json → List DJson
  | [] => []
  | x :: xs => jsonToD x :: jsonToDList xs

def jsonToDEntries : List (Str × Json) → List (DKey × DJson)
  | [] => []
  | (k, v) :: rest => (.str k, jsonToD v) :: jsonToDEntries rest

end

/-- The `remaining if not None else options.flatten_depth` resolution the
encoder performs on its optional depth parameters (statement helper). -/
def effRD (rd : Option (Option Nat)) (fd : Option Nat) : Option Nat :=
  match rd with
  | some d => d
  | none => fd

/-- List-structured restatement of the `find_closing_quote` scan (proof
helper; `findClosingQuoteAux` is index-based like the Python loop, this
walks the dropped suffix). -/
def fcqList : Str → Nat → Option Nat
  | [], _ => none
  | c :: rest, i =>
    if c = '\\' ∧ rest ≠ [] then fcqList rest.tail (i + 2)
    else if c = '"' then some i
    else fcqList rest (i + 1)
termination_by s _ => s.length
decreasing_by
  · simp only [List.length_cons, List.length_tail]
    omega
  · simp

/-!  ## Theorems  -/

theorem replaceChar_append (t : Char) (r : Str) (a b : Str) :
    replaceChar t r (a ++ b) = replaceChar t r a ++ replaceChar t r b := by
  induction a with
  | nil => simp [replaceChar]
  | cons c rest ih => simp [replaceChar, ih]

theorem escape_append (a b : Str) :
    escape_string (a ++ b) = escape_string a ++ escape_string b := by
  simp [escape_string, replaceChar_append]

theorem escape_single (c : Char) : escape_string [c] = escChar c := by
  by_cases h1 : c = '\\'
  · simp [escape_string, replaceChar, escChar, h1]
  · by_cases h2 : c = '"'
    · simp [escape_string, replaceChar, escChar, h1, h2]
    · by_cases h3 : c = '\n'
      · simp [escape_string, replaceChar, escChar, h1, h2, h3]
      · by_cases h4 : c = '\r'
        · simp [escape_string, replaceChar, escChar, h1, h2, h3, h4]
        · by_cases h5 : c = '\t'
          · simp [escape_string, replaceChar, escChar, h1, h2, h3, h4, h5]
          · simp [escape_string, replaceChar, escChar, h1, h2, h3, h4, h5]

theorem escape_cons (c : Char) (s : Str) :
    escape_string (c :: s) = escChar c ++ escape_string s := by
  have : c :: s = [c] ++ s := rfl
  rw [this, escape_append, escape_single]

theorem unescape_escChar (c : Char) (rest : Str) :
    unescape_string (escChar c ++ rest) =
      match unescape_string rest with
      | .ok r => .ok (c :: r)
      | .error e => .error e := by
  by_cases h1 : c = '\\'
  · simp [escChar, h1, unescape_string]
  · by_cases h2 : c = '"'
    · simp [escChar, h1, h2, unescape_string]
    · by_cases h3 : c = '\n'
      · simp [escChar, h1, h2, h3, unescape_string]
      · by_cases h4 : c = '\r'
        · simp [escChar, h1, h2, h3, h4, unescape_string]
        · by_cases h5 : c = '\t'
          · simp [escChar, h1, h2, h3, h4, h5, unescape_string]
          · have he : escChar c = [c] := by simp [escChar, h1, h2, h3, h4, h5]
            rw [he]
            show unescape_string (c :: rest) = _
            cases hr : unescape_string rest with
            | ok r =>
              unfold unescape_string
              simp [h1, hr]
            | error e2 =>
              unfold unescape_string
              simp [h1, hr]

theorem dropWhile_length_le (p : Char → Bool) (l : Str) :
    (l.dropWhile p).length ≤ l.length := by
  induction l with
  | nil => simp
  | cons c t ih =>
    by_cases h : p c
    · simp [List.dropWhile, h]
      omega
    · simp [List.dropWhile, h]

theorem pyLStrip_length_le (s : Str) : (pyLStrip s).length ≤ s.length :=
  dropWhile_length_le isPySpace s

theorem pyRStrip_length_le (s : Str) : (pyRStrip s).length ≤ s.length := by
  have := dropWhile_length_le isPySpace s.reverse
  simp [pyRStrip]
  simpa using this

theorem pyStrip_length_le (s : Str) : (pyStrip s).length ≤ s.length :=
  le_trans (pyRStrip_length_le _) (pyLStrip_length_le s)

theorem strip_ne_of_head_ws (c : Char) (t : Str) (h : isPySpace c = true) :
    c :: t ≠ pyStrip (c :: t) := by
  intro heq
  have h1 : pyLStrip (c :: t) = pyLStrip t := by
    simp [pyLStrip, List.dropWhile_cons, h]
  have h2 : (pyStrip (c :: t)).length ≤ t.length := by
    calc (pyStrip (c :: t)).length ≤ (pyLStrip (c :: t)).length :=
          pyRStrip_length_le _
      _ = (pyLStrip t).length := by rw [h1]
      _ ≤ t.length := pyLStrip_length_le t
  have := congrArg List.length heq
  simp at this
  omega

theorem pyLStrip_append_last (t : Str) (c : Char) :
    pyLStrip (t ++ [c]) = [] ∨ ∃ t2, pyLStrip (t ++ [c]) = t2 ++ [c] := by
  induction t with
  | nil =>
    by_cases h : isPySpace c
    · left
      simp [pyLStrip, List.dropWhile, h]
    · right
      exact ⟨[], by simp [pyLStrip, List.dropWhile, h]⟩
  | cons a t' ih =>
    by_cases h : isPySpace a
    · have h2 : pyLStrip ((a :: t') ++ [c]) = pyLStrip (t' ++ [c]) := by
        simp [pyLStrip, List.dropWhile_cons, h]
      rw [h2]
      exact ih
    · right
      refine ⟨a :: t', ?_⟩
      simp [pyLStrip, List.dropWhile_cons, h]

theorem pyRStrip_append_ws (t2 : Str) (c : Char) (h : isPySpace c = true) :
    (pyRStrip (t2 ++ [c])).length ≤ t2.length := by
  have h1 : pyRStrip (t2 ++ [c]) = (t2.reverse.dropWhile isPySpace).reverse := by
    simp [pyRStrip, List.dropWhile_cons, h]
  rw [h1]
  simpa using dropWhile_length_le isPySpace t2.reverse

theorem strip_ne_of_last_ws (t : Str) (c : Char) (h : isPySpace c = true) :
    t ++ [c] ≠ pyStrip (t ++ [c]) := by
  intro heq
  have hlen := congrArg List.length heq
  rcases pyLStrip_append_last t c with h1 | ⟨t2, h2⟩
  · have : pyStrip (t ++ [c]) = [] := by simp [pyStrip, h1, pyRStrip]
    rw [this] at heq
    simp at heq
  · have hle : (pyStrip (t ++ [c])).length ≤ t2.length := by
      simpa [pyStrip, h2] using pyRStrip_append_ws t2 c h
    have h3 : (pyLStrip (t ++ [c])).length ≤ (t ++ [c]).length := pyLStrip_length_le _
    rw [h2] at h3
    simp at h3 hlen
    omega

theorem strip_eq_of_no_ws (s : Str)
    (hh : ∀ c t, s = c :: t → isPySpace c = false)
    (hl : ∀ t c, s = t ++ [c] → isPySpace c = false) :
    pyStrip s = s := by
  cases s with
  | nil => rfl
  | cons a t =>
    have h1 : pyLStrip (a :: t) = a :: t := by
      simp [pyLStrip, List.dropWhile_cons, hh a t rfl]
    rcases List.eq_nil_or_concat (a :: t) with h | ⟨t2, c2, h2⟩
    · simp at h
    · rw [List.concat_eq_append] at h2
      have hc2 : isPySpace c2 = false := hl t2 c2 h2
      have h3 : pyRStrip (a :: t) = a :: t := by
        rw [h2]
        simp [pyRStrip, List.dropWhile_cons, hc2]
      simp [pyStrip, h1, h3]

theorem strip_ne_iff (s : Str) :
    s ≠ pyStrip s ↔
      ((∃ c t, s = c :: t ∧ isPySpace c = true) ∨
       (∃ t c, s = t ++ [c] ∧ isPySpace c = true)) := by
  constructor
  · intro hne
    by_contra hcon
    push_neg at hcon
    obtain ⟨hH, hL⟩ := hcon
    refine hne ?_
    refine (strip_eq_of_no_ws s ?_ ?_).symm
    · intro c t hst
      have := hH c t hst
      simpa using this
    · intro t c hst
      have := hL t c hst
      simpa using this
  · rintro (⟨c, t, rfl, hw⟩ | ⟨t, c, rfl, hw⟩)
    · exact strip_ne_of_head_ws c t hw
    · exact strip_ne_of_last_ws t c hw

set_option maxHeartbeats 2000000 in
/-- **C5**: `is_safe_unquoted s d` returns `false` exactly when `s` is
empty, has leading or trailing whitespace, equals `true`/`false`/`null`,
matches the numeric-literal pattern, contains one of
`: " \ [ ] { }`, newline, carriage return, tab, or the active delimiter
`d`, or starts with the list-item marker `-`; in every other case it
returns `true`. -/
theorem C5_is_safe_unquoted_characterization (s : Str) (d : Char) :
    is_safe_unquoted s d = false ↔
      (s = [] ∨
       (∃ c t, s = c :: t ∧ isPySpace c = true) ∨
       (∃ t c, s = t ++ [c] ∧ isPySpace c = true) ∨
       s = TRUE_LITERAL ∨ s = FALSE_LITERAL ∨ s = NULL_LITERAL ∨
       _is_numeric_like s = true ∨
       ':' ∈ s ∨ '"' ∈ s ∨ '\\' ∈ s ∨
       '[' ∈ s ∨ ']' ∈ s ∨ '{' ∈ s ∨ '}' ∈ s ∨
       '\n' ∈ s ∨ '\r' ∈ s ∨ '\t' ∈ s ∨
       d ∈ s ∨
       (∃ t, s = '-' :: t)) := by
  have hmark : s.head? = some LIST_ITEM_MARKER ↔ ∃ t, s = '-' :: t := by
    cases s with
    | nil => simp [LIST_ITEM_MARKER]
    | cons a t => simp [LIST_ITEM_MARKER]
  have hbool : is_boolean_or_null_literal s = true ↔
      (s = TRUE_LITERAL ∨ s = FALSE_LITERAL ∨ s = NULL_LITERAL) := by
    simp only [is_boolean_or_null_literal, Bool.or_eq_true, decide_eq_true_eq]
    tauto
  have hmem : ∀ c : Char, s.contains c = true ↔ c ∈ s := fun c => List.elem_iff
  constructor
  · intro hf
    by_contra hcon
    simp only [is_safe_unquoted] at hf
    split_ifs at hf with h1 h2 h3 h4 h5 h6 h7
    · simp only [Bool.or_eq_true, decide_eq_true_eq, List.isEmpty_iff] at h1
      rcases h1 with h | h
      · exact hcon (Or.inl h)
      · rcases (strip_ne_iff s).mp h with hw | hw
        · exact hcon (Or.inr (Or.inl hw))
        · exact hcon (Or.inr (Or.inr (Or.inl hw)))
    · simp only [Bool.or_eq_true] at h2
      rcases h2 with h | h
      · rcases hbool.mp h with hc | hc | hc
        · exact hcon (Or.inr (Or.inr (Or.inr (Or.inl hc))))
        · exact hcon (Or.inr (Or.inr (Or.inr (Or.inr (Or.inl hc)))))
        · exact hcon (Or.inr (Or.inr (Or.inr (Or.inr (Or.inr (Or.inl hc))))))
      · exact hcon (Or.inr (Or.inr (Or.inr (Or.inr (Or.inr (Or.inr (Or.inl h)))))))
    · simp only [Bool.or_eq_true, hmem] at h3
      rcases h3 with (hc | hc) | hc
      · exact hcon (Or.inr (Or.inr (Or.inr (Or.inr (Or.inr (Or.inr (Or.inr (Or.inl hc))))))))
      · exact hcon (Or.inr (Or.inr (Or.inr (Or.inr (Or.inr (Or.inr (Or.inr (Or.inr (Or.inl hc)))))))))
      · exact hcon (Or.inr (Or.inr (Or.inr (Or.inr (Or.inr (Or.inr (Or.inr (Or.inr (Or.inr (Or.inl hc))))))))))
    · simp only [Bool.or_eq_true, hmem] at h4
      rcases h4 with ((hc | hc) | hc) | hc
      · exact hcon (Or.inr (Or.inr (Or.inr (Or.inr (Or.inr (Or.inr (Or.inr (Or.inr (Or.inr (Or.inr (Or.inl hc)))))))))))
      · exact hcon (Or.inr (Or.inr (Or.inr (Or.inr (Or.inr (Or.inr (Or.inr (Or.inr (Or.inr (Or.inr (Or.inr (Or.inl hc))))))))))))
      · exact hcon (Or.inr (Or.inr (Or.inr (Or.inr (Or.inr (Or.inr (Or.inr (Or.inr (Or.inr (Or.inr (Or.inr (Or.inr (Or.inl hc)))))))))))))
      · exact hcon (Or.inr (Or.inr (Or.inr (Or.inr (Or.inr (Or.inr (Or.inr (Or.inr (Or.inr (Or.inr (Or.inr (Or.inr (Or.inr (Or.inl hc))))))))))))))
    · simp only [Bool.or_eq_true, hmem] at h5
      rcases h5 with (hc | hc) | hc
      · exact hcon (Or.inr (Or.inr (Or.inr (Or.inr (Or.inr (Or.inr (Or.inr (Or.inr (Or.inr (Or.inr (Or.inr (Or.inr (Or.inr (Or.inr (Or.inl hc)))))))))))))))
      · exact hcon (Or.inr (Or.inr (Or.inr (Or.inr (Or.inr (Or.inr (Or.inr (Or.inr (Or.inr (Or.inr (Or.inr (Or.inr (Or.inr (Or.inr (Or.inr (Or.inl hc))))))))))))))))
      · exact hcon (Or.inr (Or.inr (Or.inr (Or.inr (Or.inr (Or.inr (Or.inr (Or.inr (Or.inr (Or.inr (Or.inr (Or.inr (Or.inr (Or.inr (Or.inr (Or.inr (Or.inl hc)))))))))))))))))
    · rw [hmem] at h6
      exact hcon (Or.inr (Or.inr (Or.inr (Or.inr (Or.inr (Or.inr (Or.inr (Or.inr (Or.inr (Or.inr (Or.inr (Or.inr (Or.inr (Or.inr (Or.inr (Or.inr (Or.inr (Or.inl h6))))))))))))))))))
    · rw [hmark] at h7
      exact hcon (Or.inr (Or.inr (Or.inr (Or.inr (Or.inr (Or.inr (Or.inr (Or.inr (Or.inr (Or.inr (Or.inr (Or.inr (Or.inr (Or.inr (Or.inr (Or.inr (Or.inr (Or.inr h7))))))))))))))))))
  · intro hr
    simp only [is_safe_unquoted]
    split_ifs with h1 h2 h3 h4 h5 h6 h7
    any_goals rfl
    exfalso
    simp only [Bool.or_eq_true, decide_eq_true_eq, List.isEmpty_iff, not_or,
      not_not, hmem] at h1 h2 h3 h4 h5
    rw [hmem] at h6
    rw [hmark] at h7
    rcases hr with hc | hc | hc | hc | hc | hc | hc | hc | hc | hc | hc | hc |
        hc | hc | hc | hc | hc | hc | hc
    · exact h1.1 hc
    · exact ((strip_ne_iff s).mpr (Or.inl hc)) h1.2
    · exact ((strip_ne_iff s).mpr (Or.inr hc)) h1.2
    · exact h2.1 (hbool.mpr (Or.inl hc))
    · exact h2.1 (hbool.mpr (Or.inr (Or.inl hc)))
    · exact h2.1 (hbool.mpr (Or.inr (Or.inr hc)))
    · exact h2.2 hc
    · exact h3.1.1 hc
    · exact h3.1.2 hc
    · exact h3.2 hc
    · exact h4.1.1.1 hc
    · exact h4.1.1.2 hc
    · exact h4.1.2 hc
    · exact h4.2 hc
    · exact h5.1.1 hc
    · exact h5.1.2 hc
    · exact h5.2 hc
    · exact h6 hc
    · exact h7 hc

/-! C6: line scanner. -/

theorem processLine_error_iff (raw : Str) (n unit : Nat) (strict : Bool) :
    (∃ e, processLine raw n unit strict = .error e) ↔
      (strict = true ∧ pyStrip (raw.drop (countLeadingSpaces raw)) ≠ [] ∧
        ((leadingWs raw).contains '\t' = true ∨
         (unit ≠ 0 ∧ countLeadingSpaces raw % unit ≠ 0))) := by
  simp only [processLine]
  split_ifs with h1 h2 h3 <;> simp_all <;> tauto

theorem processLine_error_kind (raw : Str) (n unit : Nat) (strict : Bool)
    (e : DecErr) (h : processLine raw n unit strict = .error e) :
    e = .indentationErr := by
  simp only [processLine] at h
  split_ifs at h <;> simp_all

theorem processLine_ok_inl (raw : Str) (n unit : Nat) (strict : Bool)
    (pl : ParsedLine) (h : processLine raw n unit strict = .ok (.inl pl)) :
    pl.depth = (if unit = 0 then 0 else pl.indent / unit) ∧
      pl.indent = countLeadingSpaces raw := by
  simp only [processLine] at h
  split_ifs at h <;> (try simp_all) <;> (rw [← h]; simp)

theorem scanLines_error_iff (unit : Nat) (strict : Bool) :
    ∀ (lines : List Str) (n : Nat),
      (∃ e, scanLines unit strict lines n = .error e) ↔
        (strict = true ∧ ∃ raw ∈ lines,
          pyStrip (raw.drop (countLeadingSpaces raw)) ≠ [] ∧
            ((leadingWs raw).contains '\t' = true ∨
             (unit ≠ 0 ∧ countLeadingSpaces raw % unit ≠ 0))) := by
  intro lines
  induction lines with
  | nil => intro n; simp [scanLines]
  | cons raw rest ih =>
    intro n
    constructor
    · rintro ⟨e, he⟩
      simp only [scanLines] at he
      rcases hp : processLine raw n unit strict with ep | v
      · have hk := processLine_error_kind raw n unit strict ep hp
        have := (processLine_error_iff raw n unit strict).mp ⟨ep, hp⟩
        exact ⟨this.1, raw, by simp, this.2⟩
      · rcases v with pl | bl
        · rw [hp] at he
          rcases hr : scanLines unit strict rest (n + 1) with er | pr
          · have := (ih (n + 1)).mp ⟨er, hr⟩
            exact ⟨this.1, by
              obtain ⟨r2, hr2, hc⟩ := this.2
              exact ⟨r2, by simp [hr2], hc⟩⟩
          · rw [hr] at he
            simp at he
        · rw [hp] at he
          rcases hr : scanLines unit strict rest (n + 1) with er | pr
          · have := (ih (n + 1)).mp ⟨er, hr⟩
            exact ⟨this.1, by
              obtain ⟨r2, hr2, hc⟩ := this.2
              exact ⟨r2, by simp [hr2], hc⟩⟩
          · rw [hr] at he
            simp at he
    · rintro ⟨hs, r2, hmem, hcond⟩
      simp only [List.mem_cons] at hmem
      rcases hmem with rfl | hmem
      · obtain ⟨e, he⟩ := (processLine_error_iff r2 n unit strict).mpr ⟨hs, hcond⟩
        exact ⟨e, by simp [scanLines, he]⟩
      · rcases hp : processLine raw n unit strict with ep | v
        · exact ⟨ep, by simp [scanLines, hp]⟩
        · obtain ⟨e, he⟩ := (ih (n + 1)).mpr ⟨hs, r2, hmem, hcond⟩
          rcases v with pl | bl
          · exact ⟨e, by simp [scanLines, hp, he]⟩
          · exact ⟨e, by simp [scanLines, hp, he]⟩

theorem scanLines_error_kind (unit : Nat) (strict : Bool) :
    ∀ (lines : List Str) (n : Nat) (e : DecErr),
      scanLines unit strict lines n = .error e → e = .indentationErr := by
  intro lines
  induction lines with
  | nil => intro n e h; simp [scanLines] at h
  | cons raw rest ih =>
    intro n e h
    simp only [scanLines] at h
    rcases hp : processLine raw n unit strict with ep | v
    · rw [hp] at h
      simp at h
      rw [← h]
      exact processLine_error_kind raw n unit strict ep hp
    · rcases v with pl | bl <;> rw [hp] at h <;>
        rcases hr : scanLines unit strict rest (n + 1) with er | pr <;>
        rw [hr] at h <;> simp at h
      · rw [← h]
        exact ih (n + 1) er hr
      · rw [← h]
        exact ih (n + 1) er hr

theorem scanLines_ok_depths (unit : Nat) (strict : Bool) :
    ∀ (lines : List Str) (n : Nat) (ps : List ParsedLine) (bs : List BlankLineInfo),
      scanLines unit strict lines n = .ok (ps, bs) →
        ∀ pl ∈ ps, pl.depth = (if unit = 0 then 0 else pl.indent / unit) := by
  intro lines
  induction lines with
  | nil =>
    intro n ps bs h
    simp [scanLines] at h
    simp [h.1]
  | cons raw rest ih =>
    intro n ps bs h
    simp only [scanLines] at h
    rcases hp : processLine raw n unit strict with ep | v
    · rw [hp] at h
      simp at h
    · rcases v with pl | bl <;> rw [hp] at h <;>
        rcases hr : scanLines unit strict rest (n + 1) with er | pr <;>
        rw [hr] at h <;> simp at h
      · intro pl2 hmem
        rcases h with ⟨h1, _⟩
        rw [← h1] at hmem
        simp at hmem
        rcases hmem with rfl | hmem
        · exact (processLine_ok_inl raw n unit strict pl2 hp).1
        · exact ih (n + 1) pr.1 pr.2 (by simp [hr]) pl2 hmem
      · intro pl2 hmem
        rcases h with ⟨h1, _⟩
        rw [← h1] at hmem
        exact ih (n + 1) pr.1 pr.2 (by simp [hr]) pl2 hmem

theorem pyLStrip_allWs_iff (s : Str) :
    (∀ c ∈ pyLStrip s, isPySpace c = true) ↔ (∀ c ∈ s, isPySpace c = true) := by
  constructor
  · intro h c hc
    have hdecomp := List.takeWhile_append_dropWhile (p := isPySpace) (l := s)
    rw [← hdecomp] at hc
    rcases List.mem_append.mp hc with h2 | h2
    · exact List.mem_takeWhile_imp h2
    · exact h c h2
  · intro h c hc
    have : pyLStrip s ⊆ s := List.dropWhile_subset _
    exact h c (this hc)

theorem pyStrip_nil_iff (s : Str) :
    pyStrip s = [] ↔ ∀ c ∈ s, isPySpace c = true := by
  constructor
  · intro h
    rw [← pyLStrip_allWs_iff]
    intro c hc
    have h2 : (pyLStrip s).reverse.dropWhile isPySpace = [] := by
      have : pyStrip s = ((pyLStrip s).reverse.dropWhile isPySpace).reverse := rfl
      rw [this] at h
      simpa using h
    have := List.dropWhile_eq_nil_iff.mp h2
    exact this c (by simp [hc])
  · intro h
    have h1 : pyLStrip s = [] := by
      simp only [pyLStrip]
      exact List.dropWhile_eq_nil_iff.mpr h
    simp [pyStrip, h1, pyRStrip]

theorem pySplitChar_ne_nil (sep : Char) (s : Str) : pySplitChar sep s ≠ [] := by
  cases s with
  | nil => simp [pySplitChar]
  | cons c rest =>
    simp only [pySplitChar]
    split_ifs
    · simp
    · rcases h : pySplitChar sep rest with _ | ⟨curr, others⟩ <;> simp

theorem pySplitChar_mem_subset (sep : Char) :
    ∀ (s raw : Str), raw ∈ pySplitChar sep s → ∀ c ∈ raw, c ∈ s := by
  intro s
  induction s with
  | nil =>
    intro raw hraw c hc
    simp [pySplitChar] at hraw
    rw [hraw] at hc
    simp at hc
  | cons a rest ih =>
    intro raw hraw c hc
    simp only [pySplitChar] at hraw
    split_ifs at hraw with ha
    · simp at hraw
      rcases hraw with rfl | hraw
      · simp at hc
      · exact List.mem_cons_of_mem a (ih raw hraw c hc)
    · rcases h : pySplitChar sep rest with _ | ⟨curr, others⟩
      · exact absurd h (pySplitChar_ne_nil sep rest)
      · rw [h] at hraw
        simp at hraw
        rcases hraw with rfl | hraw
        · simp at hc
          rcases hc with rfl | hc
          · simp
          · exact List.mem_cons_of_mem a (ih curr (by simp [h]) c hc)
        · exact List.mem_cons_of_mem a (ih raw (by simp [h, hraw]) c hc)

/-- **C6**: in strict mode `to_parsed_lines` fails with an indentation
error exactly when some content line has a tab in its leading whitespace
or (with `indent_unit > 0`) an indent that is not an exact multiple of the
unit; any error it raises is that indentation error; and on success every
parsed line has `depth = indent / indent_unit`, with `indent_unit = 0`
forcing depth 0 (so the multiple-of-unit check never fires there). -/
theorem C6_scanner_strict_indentation (source : Str) (unit : Nat) (strict : Bool) :
    ((∃ e, to_parsed_lines source unit strict = .error e) ↔
      (strict = true ∧ ∃ raw ∈ pySplitChar '\n' source,
        pyStrip (raw.drop (countLeadingSpaces raw)) ≠ [] ∧
          ((leadingWs raw).contains '\t' = true ∨
           (unit ≠ 0 ∧ countLeadingSpaces raw % unit ≠ 0)))) ∧
    (∀ e, to_parsed_lines source unit strict = .error e → e = .indentationErr) ∧
    (∀ ps bs, to_parsed_lines source unit strict = .ok (ps, bs) →
      ∀ pl ∈ ps, pl.depth = (if unit = 0 then 0 else pl.indent / unit)) := by
  by_cases hsrc : pyStrip source = []
  · refine ⟨?_, ?_, ?_⟩
    · constructor
      · rintro ⟨e, he⟩
        simp [to_parsed_lines, hsrc] at he
      · rintro ⟨_, raw, hmem, hcontent, _⟩
        exfalso
        refine hcontent (pyStrip_nil_iff _ |>.mpr ?_)
        intro c hc
        have hsub : c ∈ raw := List.drop_subset _ _ hc
        have : c ∈ source := pySplitChar_mem_subset '\n' source raw hmem c hsub
        exact (pyStrip_nil_iff source).mp hsrc c this
    · intro e he
      simp [to_parsed_lines, hsrc] at he
    · intro ps bs h
      simp [to_parsed_lines, hsrc] at h
      simp [h.1]
  · have hunfold : to_parsed_lines source unit strict =
        scanLines unit strict (pySplitChar '\n' source) 1 := by
      simp [to_parsed_lines, hsrc]
    rw [hunfold]
    exact ⟨scanLines_error_iff unit strict _ 1,
      fun e he => scanLines_error_kind unit strict _ 1 e he,
      fun ps bs h => scanLines_ok_depths unit strict _ 1 ps bs h⟩

/-! C9: the transient quoted-key metadata never escapes `decode`. -/

mutual

theorem allStringKeys_strip : ∀ (v : DJson), allStringKeys (strip_metadata v) = true
  | .null => by simp [strip_metadata, allStringKeys]
  | .bool _ => by simp [strip_metadata, allStringKeys]
  | .num _ => by simp [strip_metadata, allStringKeys]
  | .floatTok _ => by simp [strip_metadata, allStringKeys]
  | .str _ => by simp [strip_metadata, allStringKeys]
  | .strset _ => by simp [strip_metadata, allStringKeys]
  | .arr items => by
    simp only [strip_metadata, allStringKeys]
    exact allStringKeys_stripList items
  | .obj entries => by
    simp only [strip_metadata, allStringKeys]
    exact allStringKeys_stripEntries entries

theorem allStringKeys_stripList : ∀ (l : List DJson),
    allStringKeysList (stripList l) = true
  | [] => by simp [stripList, allStringKeysList]
  | x :: xs => by
    simp only [stripList, allStringKeysList, Bool.and_eq_true]
    exact ⟨allStringKeys_strip x, allStringKeys_stripList xs⟩

theorem allStringKeys_stripEntries : ∀ (l : List (DKey × DJson)),
    allStringKeysEntries (stripEntries l) = true
  | [] => by simp [stripEntries, allStringKeysEntries]
  | (.marker, _) :: rest => by
    simp only [stripEntries]
    exact allStringKeys_stripEntries rest
  | (.str s, v) :: rest => by
    simp only [stripEntries, allStringKeysEntries, Bool.and_eq_true]
    exact ⟨⟨trivial, allStringKeys_strip v⟩, allStringKeys_stripEntries rest⟩

end

/-- **C9**: for every input text and decode options, when `decode`
returns a value, every object anywhere inside it has only string keys —
the transient quoted-key marker never appears in the result. -/
theorem C9_decode_strips_metadata (source : Str) (options : ResolvedDecodeOptions)
    (v : DJson) (h : decode source options = .ok v) :
    allStringKeys v = true := by
  simp only [decode] at h
  split at h
  · exact absurd h (by simp)
  · split at h
    · exact absurd h (by simp)
    · split at h
      · exact absurd h (by simp)
      · rename_i v2 _
        simp only [Except.ok.injEq] at h
        rw [← h]
        exact allStringKeys_strip v2

/-! C7: no folding below two segments; `flatten_depth ≤ 1` never folds. -/

theorem collectChainGo_not_lt (fuel : Nat) (md : Option Nat) (v : Json)
    (h : ltFD 1 md = false) : collectChainGo fuel md 1 v = ([], v) := by
  cases fuel with
  | zero => simp [collectChainGo]
  | succ f =>
    cases v with
    | obj entries =>
      match entries with
      | [] => simp [collectChainGo]
      | [(k, w)] => simp [collectChainGo, h]
      | (k1, w1) :: (k2, w2) :: rest => simp [collectChainGo]
    | null => simp [collectChainGo]
    | bool b => simp [collectChainGo]
    | num n => simp [collectChainGo]
    | str s => simp [collectChainGo]
    | arr items => simp [collectChainGo]

theorem try_fold_none_of_le1 (key : Str) (value : Json) (siblings : List Str)
    (options : ResolvedEncodeOptions) (rlk : Option (List Str)) (pp : Option Str)
    (fd : Option Nat) (h : ltFD 1 fd = false) :
    try_fold_key_chain key value siblings options rlk pp fd = none := by
  have hgo := collectChainGo_not_lt (Json.size value + 1) fd value h
  have hc : (_collect_single_key_chain key value fd).1 = [key] := by
    simp only [_collect_single_key_chain, hgo]
    split <;> rfl
  simp only [try_fold_key_chain]
  split_ifs with h1 h2 <;> try rfl
  all_goals (exfalso; rw [hc] at h2; simp at h2)

theorem C7_part1_fold_result_shape (key : Str) (value : Json) (siblings : List Str)
    (options : ResolvedEncodeOptions) (rlk : Option (List Str)) (pp : Option Str)
    (fd : Option Nat) (r : FoldResult)
    (h : try_fold_key_chain key value siblings options rlk pp fd = some r) :
    2 ≤ r.segment_count ∧ ∃ segs : List Str, segs.length = r.segment_count ∧
      segs.all is_identifier_segment = true ∧ r.folded_key = joinSep '.' segs := by
  simp only [try_fold_key_chain] at h
  split_ifs at h with h1 h2 h3 h4
  injection h with h
  rw [← h]
  simp only [Bool.or_eq_true, not_or] at h2
  constructor
  · have h21 := h2.1
    simp at h21
    show 2 ≤ (_collect_single_key_chain key value fd).1.length
    omega
  · refine ⟨(_collect_single_key_chain key value fd).1, rfl, ?_, rfl⟩
    have h22 := h2.2
    simpa using h22

theorem flatMap_congr {α β : Type} (l : List α) (f g : α → List β)
    (h : ∀ x ∈ l, f x = g x) : l.flatMap f = l.flatMap g := by
  induction l with
  | nil => simp
  | cons a t ih =>
    simp only [List.flatMap_cons]
    rw [h a (by simp), ih (fun x hx => h x (by simp [hx]))]

set_option maxHeartbeats 3000000 in
theorem encodeEqAux (ind : Nat) (delim : Char) (m : Nat) (hm : m ≤ 1) :
    ∀ fuel : Nat,
      (∀ es d rlk pp rd, ltFD 1 (effRD rd (some m)) = false →
        encodeObjectF fuel es d ⟨ind, delim, .safe, some m⟩ rlk pp rd =
          encodeObjectF fuel es d ⟨ind, delim, .off, some m⟩ rlk pp rd) ∧
      (∀ k v d sib rlk pp fl, ltFD 1 (effRD fl (some m)) = false →
        encodeKeyValuePairF fuel k v d ⟨ind, delim, .safe, some m⟩ sib rlk pp fl =
          encodeKeyValuePairF fuel k v d ⟨ind, delim, .off, some m⟩ sib rlk pp fl) ∧
      (∀ key v d, encodeArrayF fuel key v d ⟨ind, delim, .safe, some m⟩ =
          encodeArrayF fuel key v d ⟨ind, delim, .off, some m⟩) ∧
      (∀ key items d, encodeMixedArrayF fuel key items d ⟨ind, delim, .safe, some m⟩ =
          encodeMixedArrayF fuel key items d ⟨ind, delim, .off, some m⟩) ∧
      (∀ obj d, encodeObjectAsListItemF fuel obj d ⟨ind, delim, .safe, some m⟩ =
          encodeObjectAsListItemF fuel obj d ⟨ind, delim, .off, some m⟩) ∧
      (∀ v d, encodeListItemValueF fuel v d ⟨ind, delim, .safe, some m⟩ =
          encodeListItemValueF fuel v d ⟨ind, delim, .off, some m⟩) := by
  have hm' : ltFD 1 (some m) = false := by
    simp [ltFD]
    omega
  intro fuel
  induction fuel with
  | zero =>
    refine ⟨?_, ?_, ?_, ?_, ?_, ?_⟩ <;> intros <;>
      simp [encodeObjectF, encodeKeyValuePairF, encodeArrayF, encodeMixedArrayF,
        encodeObjectAsListItemF, encodeListItemValueF]
  | succ fuel ih =>
    obtain ⟨IHobj, IHkvp, IHarr, IHmix, IHoali, IHeliv⟩ := ih
    have Hkvp : ∀ k v d sib rlk pp fl, ltFD 1 (effRD fl (some m)) = false →
        encodeKeyValuePairF (fuel + 1) k v d ⟨ind, delim, .safe, some m⟩ sib rlk pp fl =
          encodeKeyValuePairF (fuel + 1) k v d ⟨ind, delim, .off, some m⟩ sib rlk pp fl := by
      intro k v d sib rlk pp fl hfl
      have heff : ∃ m2, (effRD fl (some m) = some m2) ∧ m2 ≤ 1 := by
        rcases fl with _ | d2
        · exact ⟨m, rfl, hm⟩
        · rcases d2 with _ | m2
          · simp [effRD, ltFD] at hfl
          · refine ⟨m2, rfl, ?_⟩
            simp [effRD, ltFD] at hfl
            omega
      obtain ⟨m2, hfl2, hm2⟩ := heff
      have hnone := try_fold_none_of_le1 k v (sib.getD [])
        (⟨ind, delim, .safe, some m⟩ : ResolvedEncodeOptions) rlk pp
        (effRD fl (some m)) (by rw [hfl2]; simp [ltFD]; omega)
      cases fl with
      | none =>
        simp only [effRD] at hnone hfl2
        simp only [encodeKeyValuePairF, hnone]
        cases v with
        | arr items => simp [IHarr]
        | obj es2 =>
          simp only [ite_self]
          simp
          rw [IHobj es2 (d + 1) rlk _ (some (some m)) (by simpa [effRD] using hm')]
        | null => simp
        | bool b => simp
        | num n => simp
        | str s => simp
      | some d2 =>
        simp only [effRD] at hnone hfl2
        subst hfl2
        simp only [encodeKeyValuePairF, hnone]
        have hm2' : ltFD 1 (some m2) = false := by
          simp [ltFD]
          omega
        cases v with
        | arr items => simp [IHarr]
        | obj es2 =>
          simp only [ite_self]
          simp
          rw [IHobj es2 (d + 1) rlk _ (some (some m2)) (by simpa [effRD] using hm2')]
        | null => simp
        | bool b => simp
        | num n => simp
        | str s => simp
    refine ⟨?_, Hkvp, ?_, ?_, ?_, ?_⟩
    · -- encodeObjectF
      intro es d rlk pp rd hrd
      simp only [encodeObjectF]
      apply flatMap_congr
      intro p _
      apply IHkvp
      simpa [effRD] using hrd
    · -- encodeArrayF
      intro key v d
      simp only [encodeArrayF]
      split_ifs <;> try rfl
      · split
        · rfl
        · apply IHmix
      · apply IHmix
    · -- encodeMixedArrayF
      intro key items d
      simp only [encodeMixedArrayF]
      congr 1
      apply flatMap_congr
      intro x _
      apply IHeliv
    · -- encodeObjectAsListItemF
      intro obj d
      simp only [encodeObjectAsListItemF]
      match obj with
      | [] => rfl
      | (first_key, first_value) :: restEntries =>
        simp only []
        have hrest : restEntries.flatMap (fun p =>
            encodeKeyValuePairF fuel p.1 p.2 (d + 1)
              (⟨ind, delim, .safe, some m⟩ : ResolvedEncodeOptions) none none none none) =
            restEntries.flatMap (fun p =>
              encodeKeyValuePairF fuel p.1 p.2 (d + 1)
                (⟨ind, delim, .off, some m⟩ : ResolvedEncodeOptions) none none none none) := by
          apply flatMap_congr
          intro p _
          apply IHkvp
          simpa [effRD] using hm'
        rw [hrest]
        congr 1
        cases first_value with
        | arr items =>
          simp only []
          split_ifs <;> try rfl
          · split
            · rfl
            · congr 1
              apply flatMap_congr
              intro x _
              match x with
              | .obj es3 => exact IHoali es3 (d + 1)
              | .null | .bool _ | .num _ | .str _ | .arr _ => rfl
          · congr 1
            apply flatMap_congr
            intro x _
            apply IHeliv
        | obj es2 =>
          simp only []
          congr 1
          split_ifs <;> try rfl
          apply IHobj
          simpa [effRD] using hm'
        | null => rfl
        | bool b => rfl
        | num n => rfl
        | str s => rfl
    · -- encodeListItemValueF
      intro v d
      simp only [encodeListItemValueF]
      cases v with
      | arr items => rfl
      | obj es2 => apply IHoali
      | null => rfl
      | bool b => rfl
      | num n => rfl
      | str s => rfl

/-- **C7**: with `key_folding = safe` a single-key chain is folded only
when it has at least two identifier-like segments, and for every value
and `flatten_depth ∈ {0, 1}` the safe-folding output is byte-identical to
the `key_folding = off` output. -/
theorem C7_folding_boundary :
    (∀ key value siblings options rlk pp fd (r : FoldResult),
        try_fold_key_chain key value siblings options rlk pp fd = some r →
        2 ≤ r.segment_count ∧ ∃ segs : List Str, segs.length = r.segment_count ∧
          segs.all is_identifier_segment = true ∧ r.folded_key = joinSep '.' segs) ∧
    (∀ (v : Json) (ind : Nat) (delim : Char) (m : Nat), (m = 0 ∨ m = 1) →
        encode_value v ⟨ind, delim, .safe, some m⟩ =
          encode_value v ⟨ind, delim, .off, some m⟩) := by
  constructor
  · exact fun k v s o rlk pp fd r h => C7_part1_fold_result_shape k v s o rlk pp fd r h
  · intro v ind delim m hm01
    have hm : m ≤ 1 := by rcases hm01 with rfl | rfl <;> omega
    cases v with
    | arr items =>
      obtain ⟨Hobj, Hkvp, Harr, Hmix, Hoali, Heliv⟩ :=
        encodeEqAux ind delim m hm (encodeFuel (.arr items))
      simp only [encode_value]
      rw [Harr]
    | obj es =>
      obtain ⟨Hobj, Hkvp, Harr, Hmix, Hoali, Heliv⟩ :=
        encodeEqAux ind delim m hm (encodeFuel (.obj es))
      simp only [encode_value]
      rw [Hobj es 0 none none none (by simp [effRD, ltFD]; omega)]
    | null => rfl
    | bool b => rfl
    | num n => rfl
    | str s => rfl

/-! C2, C8, C1, C3-counterexample: concrete evaluations of the codec. -/

/-- **C2**: decoding `items[3]: a,b` (declared length 3, two items) in
strict mode raises the count-mismatch error; with strict mode off it
succeeds with `{"items": ["a", "b"]}`. -/
theorem C2_strict_count_mismatch :
    decode ("items[3]: a,b".toList)
        { indent := 2, strict := true, expand_paths := .off } =
      .error .countMismatch ∧
    decode ("items[3]: a,b".toList)
        { indent := 2, strict := false, expand_paths := .off } =
      .ok (.obj [(.str ("items".toList),
        .arr [.str ("a".toList), .str ("b".toList)])]) := by
  constructor <;>
  simp [decode, to_parsed_lines, scanLines, processLine,
    countLeadingSpaces, leadingWs, pyStrip, pyRStrip, pyLStrip, isPySpace,
    pySplitChar, decodeValueFromLinesF, decodeObjectF, decodeObjectLoopF,
    decodeKeyValueF, decodeArrayFromHeaderF, decodeListArrayF, decodeListLoopF,
    decodeTabularArrayF, decodeTabularLoopF, decodeListItemF,
    decodeObjectFromListItemF, decodeObjectFromListItemLoopF, decodeFuel,
    parse_array_header_line, headerBracketStart, headerParseKey,
    parse_bracket_segment, parseFieldList,
    parse_delimited_values, pdvGo, parse_primitive_token, parse_string_literal,
    parse_key_token, parse_unquoted_key, parse_quoted_key,
    find_closing_quote, findClosingQuoteAux, find_unquoted_char,
    findUnquotedCharAux, findFrom, List.get, is_array_header_after_hyphen,
    is_object_first_field_after_hyphen, _is_key_value_line,
    _decode_inline_primitive_array, map_row_values_to_primitives, buildRowObj,
    assert_expected_count, validate_no_extra_list_items,
    validate_no_extra_tabular_rows, validate_no_blank_lines_in_range,
    _is_data_row, dictSet, dGet, dHas, setAdd, startsWithDashSpace,
    is_numeric_literal, floatAccepts, matchDigits1, dropDigits,
    is_boolean_or_null_literal, pyParseInt, parseNatDigits, digitsVal,
    floatTokIsZero, unescape_string, strip_metadata, stripList, stripEntries,
    expandF, expandListF, expandEntriesF, insertPathSafeF, mergeResolveF,
    mergeObjectsF, expand_paths_safe, DJson.size, DJson.sizeList,
    DJson.sizeEntries, is_identifier_segment, isAlphaUnder, isWordChar, isDig,
    NULL_LITERAL, TRUE_LITERAL, FALSE_LITERAL, DEFAULT_DELIMITER, COMMA, PIPE,
    TAB, LIST_ITEM_MARKER]

/-- **C8**: encoding `{"a": {"b": {"c": 1}}}` with `key_folding = safe`
(default flatten depth) yields exactly `a.b.c: 1`; decoding that text with
`expand_paths = safe` returns the nested object, and with
`expand_paths = off` returns `{"a.b.c": 1}`. -/
theorem C8_fold_and_expand_inverse :
    encode_value
        (.obj [("a".toList, .obj [("b".toList, .obj [("c".toList, .num 1)])])])
        { indent := 2, delimiter := ',', key_folding := .safe, flatten_depth := none } =
      "a.b.c: 1".toList ∧
    decode ("a.b.c: 1".toList) { indent := 2, strict := true, expand_paths := .safe } =
      .ok (.obj [(.str ("a".toList), .obj [(.str ("b".toList),
        .obj [(.str ("c".toList), .num 1)])])]) ∧
    decode ("a.b.c: 1".toList) { indent := 2, strict := true, expand_paths := .off } =
      .ok (.obj [(.str ("a.b.c".toList), .num 1)]) := by
  refine ⟨?_, ?_, ?_⟩
  · simp [encode_value, encodeObjectF, encodeKeyValuePairF,
    encodeArrayF, encodeMixedArrayF, encodeObjectAsListItemF,
    encodeListItemValueF, encodeFuel, Json.size, Json.sizeList,
    Json.sizeEntries, joinLines, writerLine, writerListItem,
    try_fold_key_chain, _collect_single_key_chain, collectChainGo, ltFD,
    optTruthy, is_identifier_segment, isAlphaUnder, isWordChar, isDig,
    encode_key, is_valid_unquoted_key, encode_primitive, format_number_js,
    intRepr, natToDec, natToDecGo, digitChar, encode_string_literal,
    is_safe_unquoted, is_boolean_or_null_literal, _is_numeric_like,
    matchNumericLikeRe, matchLeadingZeroRe, numericLikeTail, matchDigits1,
    dropDigits, pyStrip, pyRStrip, pyLStrip, isPySpace, escape_string,
    replaceChar, format_header, encode_inline_array_line,
    encode_and_join_primitives, joinSep, extract_tabular_header,
    is_tabular_array, rowHasKeyPrim, write_tabular_rows,
    is_array_of_primitives, is_array_of_arrays, is_array_of_objects,
    Json.isPrim, NULL_LITERAL, TRUE_LITERAL, FALSE_LITERAL, DEFAULT_DELIMITER,
    COMMA, PIPE, TAB, LIST_ITEM_MARKER]
  · simp [decode, to_parsed_lines, scanLines, processLine,
    countLeadingSpaces, leadingWs, pyStrip, pyRStrip, pyLStrip, isPySpace,
    pySplitChar, decodeValueFromLinesF, decodeObjectF, decodeObjectLoopF,
    decodeKeyValueF, decodeArrayFromHeaderF, decodeListArrayF, decodeListLoopF,
    decodeTabularArrayF, decodeTabularLoopF, decodeListItemF,
    decodeObjectFromListItemF, decodeObjectFromListItemLoopF, decodeFuel,
    parse_array_header_line, headerBracketStart, headerParseKey,
    parse_bracket_segment, parseFieldList,
    parse_delimited_values, pdvGo, parse_primitive_token, parse_string_literal,
    parse_key_token, parse_unquoted_key, parse_quoted_key,
    find_closing_quote, findClosingQuoteAux, find_unquoted_char,
    findUnquotedCharAux, findFrom, List.get, is_array_header_after_hyphen,
    is_object_first_field_after_hyphen, _is_key_value_line,
    _decode_inline_primitive_array, map_row_values_to_primitives, buildRowObj,
    assert_expected_count, validate_no_extra_list_items,
    validate_no_extra_tabular_rows, validate_no_blank_lines_in_range,
    _is_data_row, dictSet, dGet, dHas, setAdd, startsWithDashSpace,
    is_numeric_literal, floatAccepts, matchDigits1, dropDigits,
    is_boolean_or_null_literal, pyParseInt, parseNatDigits, digitsVal,
    floatTokIsZero, unescape_string, strip_metadata, stripList, stripEntries,
    expandF, expandListF, expandEntriesF, insertPathSafeF, mergeResolveF,
    mergeObjectsF, expand_paths_safe, DJson.size, DJson.sizeList,
    DJson.sizeEntries, is_identifier_segment, isAlphaUnder, isWordChar, isDig,
    NULL_LITERAL, TRUE_LITERAL, FALSE_LITERAL, DEFAULT_DELIMITER, COMMA, PIPE,
    TAB, LIST_ITEM_MARKER]
  · simp [decode, to_parsed_lines, scanLines, processLine,
    countLeadingSpaces, leadingWs, pyStrip, pyRStrip, pyLStrip, isPySpace,
    pySplitChar, decodeValueFromLinesF, decodeObjectF, decodeObjectLoopF,
    decodeKeyValueF, decodeArrayFromHeaderF, decodeListArrayF, decodeListLoopF,
    decodeTabularArrayF, decodeTabularLoopF, decodeListItemF,
    decodeObjectFromListItemF, decodeObjectFromListItemLoopF, decodeFuel,
    parse_array_header_line, headerBracketStart, headerParseKey,
    parse_bracket_segment, parseFieldList,
    parse_delimited_values, pdvGo, parse_primitive_token, parse_string_literal,
    parse_key_token, parse_unquoted_key, parse_quoted_key,
    find_closing_quote, findClosingQuoteAux, find_unquoted_char,
    findUnquotedCharAux, findFrom, List.get, is_array_header_after_hyphen,
    is_object_first_field_after_hyphen, _is_key_value_line,
    _decode_inline_primitive_array, map_row_values_to_primitives, buildRowObj,
    assert_expected_count, validate_no_extra_list_items,
    validate_no_extra_tabular_rows, validate_no_blank_lines_in_range,
    _is_data_row, dictSet, dGet, dHas, setAdd, startsWithDashSpace,
    is_numeric_literal, floatAccepts, matchDigits1, dropDigits,
    is_boolean_or_null_literal, pyParseInt, parseNatDigits, digitsVal,
    floatTokIsZero, unescape_string, strip_metadata, stripList, stripEntries,
    expandF, expandListF, expandEntriesF, insertPathSafeF, mergeResolveF,
    mergeObjectsF, expand_paths_safe, DJson.size, DJson.sizeList,
    DJson.sizeEntries, is_identifier_segment, isAlphaUnder, isWordChar, isDig,
    NULL_LITERAL, TRUE_LITERAL, FALSE_LITERAL, DEFAULT_DELIMITER, COMMA, PIPE,
    TAB, LIST_ITEM_MARKER]

/-- **C1**: the round-trip property fails on the code.  The value
`[{"a": {}, "b": 1}]` encodes (default options) to
`[1]:\n  - a:\n    b: 1`, which decodes (default options) to
`[{"a": {"b": 1}}]` — the decoder attaches `b` as a child of the empty
object `a` instead of as the item's second field, so
`decode(encode(v)) ≠ v`. -/
theorem C1_roundtrip_failure_found :
    encode_value (.arr [.obj [("a".toList, .obj []), ("b".toList, .num 1)]])
        { indent := 2, delimiter := ',', key_folding := .off, flatten_depth := none } =
      "[1]:\n  - a:\n    b: 1".toList ∧
    decode ("[1]:\n  - a:\n    b: 1".toList)
        { indent := 2, strict := true, expand_paths := .off } =
      .ok (.arr [.obj [(.str ("a".toList), .obj [(.str ("b".toList), .num 1)])]]) ∧
    (DJson.arr [.obj [(.str ("a".toList), .obj [(.str ("b".toList), .num 1)])]]) ≠
      jsonToD (.arr [.obj [("a".toList, .obj []), ("b".toList, .num 1)]]) := by
  refine ⟨?_, ?_, ?_⟩
  · simp [encode_value, encodeObjectF, encodeKeyValuePairF,
    encodeArrayF, encodeMixedArrayF, encodeObjectAsListItemF,
    encodeListItemValueF, encodeFuel, Json.size, Json.sizeList,
    Json.sizeEntries, joinLines, writerLine, writerListItem,
    try_fold_key_chain, _collect_single_key_chain, collectChainGo, ltFD,
    optTruthy, is_identifier_segment, isAlphaUnder, isWordChar, isDig,
    encode_key, is_valid_unquoted_key, encode_primitive, format_number_js,
    intRepr, natToDec, natToDecGo, digitChar, encode_string_literal,
    is_safe_unquoted, is_boolean_or_null_literal, _is_numeric_like,
    matchNumericLikeRe, matchLeadingZeroRe, numericLikeTail, matchDigits1,
    dropDigits, pyStrip, pyRStrip, pyLStrip, isPySpace, escape_string,
    replaceChar, format_header, encode_inline_array_line,
    encode_and_join_primitives, joinSep, extract_tabular_header,
    is_tabular_array, rowHasKeyPrim, write_tabular_rows,
    is_array_of_primitives, is_array_of_arrays, is_array_of_objects,
    Json.isPrim, NULL_LITERAL, TRUE_LITERAL, FALSE_LITERAL, DEFAULT_DELIMITER,
    COMMA, PIPE, TAB, LIST_ITEM_MARKER]
  · simp [decode, to_parsed_lines, scanLines, processLine,
    countLeadingSpaces, leadingWs, pyStrip, pyRStrip, pyLStrip, isPySpace,
    pySplitChar, decodeValueFromLinesF, decodeObjectF, decodeObjectLoopF,
    decodeKeyValueF, decodeArrayFromHeaderF, decodeListArrayF, decodeListLoopF,
    decodeTabularArrayF, decodeTabularLoopF, decodeListItemF,
    decodeObjectFromListItemF, decodeObjectFromListItemLoopF, decodeFuel,
    parse_array_header_line, headerBracketStart, headerParseKey,
    parse_bracket_segment, parseFieldList,
    parse_delimited_values, pdvGo, parse_primitive_token, parse_string_literal,
    parse_key_token, parse_unquoted_key, parse_quoted_key,
    find_closing_quote, findClosingQuoteAux, find_unquoted_char,
    findUnquotedCharAux, findFrom, List.get, is_array_header_after_hyphen,
    is_object_first_field_after_hyphen, _is_key_value_line,
    _decode_inline_primitive_array, map_row_values_to_primitives, buildRowObj,
    assert_expected_count, validate_no_extra_list_items,
    validate_no_extra_tabular_rows, validate_no_blank_lines_in_range,
    _is_data_row, dictSet, dGet, dHas, setAdd, startsWithDashSpace,
    is_numeric_literal, floatAccepts, matchDigits1, dropDigits,
    is_boolean_or_null_literal, pyParseInt, parseNatDigits, digitsVal,
    floatTokIsZero, unescape_string, strip_metadata, stripList, stripEntries,
    expandF, expandListF, expandEntriesF, insertPathSafeF, mergeResolveF,
    mergeObjectsF, expand_paths_safe, DJson.size, DJson.sizeList,
    DJson.sizeEntries, is_identifier_segment, isAlphaUnder, isWordChar, isDig,
    NULL_LITERAL, TRUE_LITERAL, FALSE_LITERAL, DEFAULT_DELIMITER, COMMA, PIPE,
    TAB, LIST_ITEM_MARKER]
  · simp [jsonToD, jsonToDList, jsonToDEntries]

/-- **C3** counterexample: for the field list `["a}"]` (a close brace in a
field name), parsing the formatted header does not recover the fields —
`parse_array_header_line` raises a syntax error, because the brace scan
finds the `}` inside the quoted field name first. -/
theorem C3_counterexample_brace_in_field :
    parse_array_header_line
        (format_header 1 none (some [['a', '}']]) ',') ',' =
      .error .syntaxErr := by
  simp [format_header, encode_key, is_valid_unquoted_key, isAlphaUnder,
    isWordChar, isDig, escape_string, replaceChar, joinSep, natToDec,
    natToDecGo, digitChar, DEFAULT_DELIMITER, COMMA,
    parse_array_header_line, headerBracketStart, headerParseKey,
    parse_bracket_segment, parseFieldList,
    parse_delimited_values, pdvGo, parse_string_literal, find_closing_quote,
    findClosingQuoteAux, findFrom, pyStrip, pyRStrip, pyLStrip, isPySpace,
    pyParseInt, parseNatDigits, digitsVal, unescape_string, TAB, PIPE]

/-! Witnesses for the hypothesis-bearing claim theorems. -/

theorem C6_scanner_strict_indentation_witness :
    (∃ e, to_parsed_lines ("\tx".toList) 2 true = .error e) ∧
    (∀ ps bs, to_parsed_lines ("a: 1".toList) 2 true = .ok (ps, bs) →
      ∀ pl ∈ ps, pl.depth = (if 2 = 0 then 0 else pl.indent / 2)) := by
  constructor
  · exact (C6_scanner_strict_indentation ("\tx".toList) 2 true).1.mpr
      (by
        refine ⟨rfl, "\tx".toList, ?_, ?_, ?_⟩ <;>
          simp [pySplitChar, pyStrip, pyRStrip, pyLStrip, isPySpace,
            countLeadingSpaces, leadingWs])
  · exact (C6_scanner_strict_indentation ("a: 1".toList) 2 true).2.2

theorem C7_folding_boundary_witness :
    (try_fold_key_chain ("a".toList) (.obj [("b".toList, .num 1)])
        [("a".toList)] ⟨2, ',', .safe, none⟩ none none none =
      some ⟨"a.b".toList, none, .num 1, 2⟩) ∧
    2 ≤ (⟨"a.b".toList, none, .num 1, 2⟩ : FoldResult).segment_count ∧
    ((0 : Nat) = 0 ∨ (0 : Nat) = 1) ∧
    encode_value (.obj [("a".toList, .obj [("b".toList, .num 1)])])
        ⟨2, ',', .safe, some 0⟩ =
      encode_value (.obj [("a".toList, .obj [("b".toList, .num 1)])])
        ⟨2, ',', .off, some 0⟩ := by
  have h1 : try_fold_key_chain ("a".toList) (.obj [("b".toList, .num 1)])
      [("a".toList)] ⟨2, ',', .safe, none⟩ none none none =
      some ⟨"a.b".toList, none, .num 1, 2⟩ := by
    simp [try_fold_key_chain, _collect_single_key_chain, collectChainGo, ltFD,
      optTruthy, is_identifier_segment, isAlphaUnder, isWordChar, isDig,
      joinSep, Json.size, Json.sizeList, Json.sizeEntries]
  exact ⟨h1, (C7_folding_boundary.1 _ _ _ _ _ _ _ _ h1).1, Or.inl rfl,
    C7_folding_boundary.2 _ 2 ',' 0 (Or.inl rfl)⟩

theorem C9_decode_strips_metadata_witness :
    decode ("a: 1".toList) { indent := 2, strict := true, expand_paths := .off } =
      .ok (.obj [(.str ("a".toList), .num 1)]) ∧
    allStringKeys (.obj [(.str ("a".toList), .num 1)]) = true := by
  have h : decode ("a: 1".toList)
      { indent := 2, strict := true, expand_paths := .off } =
      .ok (.obj [(.str ("a".toList), .num 1)]) := by
    simp [decode, to_parsed_lines, scanLines, processLine,
    countLeadingSpaces, leadingWs, pyStrip, pyRStrip, pyLStrip, isPySpace,
    pySplitChar, decodeValueFromLinesF, decodeObjectF, decodeObjectLoopF,
    decodeKeyValueF, decodeArrayFromHeaderF, decodeListArrayF, decodeListLoopF,
    decodeTabularArrayF, decodeTabularLoopF, decodeListItemF,
    decodeObjectFromListItemF, decodeObjectFromListItemLoopF, decodeFuel,
    parse_array_header_line, headerBracketStart, headerParseKey,
    parse_bracket_segment, parseFieldList,
    parse_delimited_values, pdvGo, parse_primitive_token, parse_string_literal,
    parse_key_token, parse_unquoted_key, parse_quoted_key,
    find_closing_quote, findClosingQuoteAux, find_unquoted_char,
    findUnquotedCharAux, findFrom, List.get, is_array_header_after_hyphen,
    is_object_first_field_after_hyphen, _is_key_value_line,
    _decode_inline_primitive_array, map_row_values_to_primitives, buildRowObj,
    assert_expected_count, validate_no_extra_list_items,
    validate_no_extra_tabular_rows, validate_no_blank_lines_in_range,
    _is_data_row, dictSet, dGet, dHas, setAdd, startsWithDashSpace,
    is_numeric_literal, floatAccepts, matchDigits1, dropDigits,
    is_boolean_or_null_literal, pyParseInt, parseNatDigits, digitsVal,
    floatTokIsZero, unescape_string, strip_metadata, stripList, stripEntries,
    expandF, expandListF, expandEntriesF, insertPathSafeF, mergeResolveF,
    mergeObjectsF, expand_paths_safe, DJson.size, DJson.sizeList,
    DJson.sizeEntries, is_identifier_segment, isAlphaUnder, isWordChar, isDig,
    NULL_LITERAL, TRUE_LITERAL, FALSE_LITERAL, DEFAULT_DELIMITER, COMMA, PIPE,
    TAB, LIST_ITEM_MARKER]
  exact ⟨h, C9_decode_strips_metadata _ _ _ h⟩

/-- **C10**: for every string `s`,
`unescape_string (escape_string s) = s` — escaping (backslash, double
quote, newline, carriage return, tab) followed by unescaping recovers the
original string exactly, and unescaping never raises on escaped output. -/
theorem C10_escape_unescape_roundtrip (s : Str) :
    unescape_string (escape_string s) = .ok s := by
  induction s with
  | nil => simp [escape_string, replaceChar, unescape_string]
  | cons c rest ih => rw [escape_cons, unescape_escChar, ih]


/-! C3 infrastructure: decimal digits round-trip. -/

theorem isDig_digitChar (n : Nat) (h : n < 10) : isDig (digitChar n) = true := by
  interval_cases n <;> decide

theorem toNat_digitChar (n : Nat) (h : n < 10) :
    (digitChar n).toNat - '0'.toNat = n := by
  interval_cases n <;> decide

theorem digitsVal_append_digit (a : Str) (c : Char) :
    digitsVal (a ++ [c]) = digitsVal a * 10 + (c.toNat - '0'.toNat) := by
  simp [digitsVal, List.foldl_append]

theorem natToDecGo_spec : ∀ fuel n, n < fuel →
    natToDecGo fuel n ≠ [] ∧ (natToDecGo fuel n).all isDig = true ∧
      digitsVal (natToDecGo fuel n) = n := by
  intro fuel
  induction fuel with
  | zero => omega
  | succ f ih =>
    intro n hn
    by_cases h : n < 10
    · refine ⟨by simp [natToDecGo, h], ?_, ?_⟩
      · simp [natToDecGo, h, isDig_digitChar n h]
      · simp [natToDecGo, h, digitsVal]
        exact toNat_digitChar n h
    · have hdiv : n / 10 < n := Nat.div_lt_self (by omega) (by omega)
      have hih := ih (n / 10) (by omega)
      refine ⟨by simp [natToDecGo, h], ?_, ?_⟩
      · simp only [natToDecGo, h, if_false, List.all_append]
        rw [Bool.and_eq_true]
        refine ⟨hih.2.1, ?_⟩
        simp [isDig_digitChar (n % 10) (by omega)]
      · simp only [natToDecGo, h, if_false]
        rw [digitsVal_append_digit, hih.2.2, toNat_digitChar (n % 10) (by omega)]
        omega

theorem natToDec_spec (n : Nat) :
    natToDec n ≠ [] ∧ (natToDec n).all isDig = true ∧ digitsVal (natToDec n) = n :=
  natToDecGo_spec (n + 1) n (by omega)

theorem parseNatDigits_natToDec (n : Nat) :
    parseNatDigits (natToDec n) = some n := by
  obtain ⟨h1, h2, h3⟩ := natToDec_spec n
  simp [parseNatDigits, h1, h2, h3]

theorem pyParseInt_natToDec (n : Nat) :
    pyParseInt (natToDec n) = some (n : Int) := by
  obtain ⟨h1, h2, h3⟩ := natToDec_spec n
  rcases hd : natToDec n with _ | ⟨c, rest⟩
  · exact absurd hd h1
  · have hc : isDig c = true := by
      rw [hd] at h2
      simp only [List.all_cons, Bool.and_eq_true] at h2
      exact h2.1
    have hcm : c ≠ '-' := by
      intro hcc
      rw [hcc] at hc
      simp [isDig] at hc
    have hcp : c ≠ '+' := by
      intro hcc
      rw [hcc] at hc
      simp [isDig] at hc
    have hval : parseNatDigits (c :: rest) = some n := by
      rw [← hd, parseNatDigits_natToDec]
    simp [pyParseInt, hcm, hcp, hval]

/-! C3 infrastructure: bracket segment round-trip. -/

theorem getLast?_natToDec_isDig (n : Nat) :
    ∃ c, (natToDec n).getLast? = some c ∧ isDig c = true := by
  obtain ⟨h1, h2, _⟩ := natToDec_spec n
  rcases hg : (natToDec n).getLast? with _ | c
  · rw [List.getLast?_eq_none_iff] at hg
    exact absurd hg h1
  · refine ⟨c, rfl, ?_⟩
    have hm : c ∈ natToDec n := List.mem_of_mem_getLast? hg
    rw [List.all_eq_true] at h2
    exact h2 c hm

theorem parse_bracket_segment_comma (n : Nat) :
    parse_bracket_segment (natToDec n) ',' = some (n, ',') := by
  obtain ⟨c, hg, hc⟩ := getLast?_natToDec_isDig n
  have ht : ¬ (natToDec n).getLast? = some TAB := by
    rw [hg]
    intro h
    simp only [Option.some.injEq] at h
    rw [h] at hc
    simp [isDig, TAB] at hc
  have hp : ¬ (natToDec n).getLast? = some PIPE := by
    rw [hg]
    intro h
    simp only [Option.some.injEq] at h
    rw [h] at hc
    simp [isDig, PIPE] at hc
  simp only [parse_bracket_segment]
  rw [if_neg ht, if_neg hp]
  rw [pyParseInt_natToDec]
  simp

theorem parse_bracket_segment_suffix (n : Nat) (d : Char)
    (h : d = TAB ∨ d = PIPE) :
    parse_bracket_segment (natToDec n ++ [d]) d = some (n, d) := by
  have hg : (natToDec n ++ [d]).getLast? = some d := List.getLast?_concat _
  have hdl : (natToDec n ++ [d]).dropLast = natToDec n := List.dropLast_concat
  rcases h with rfl | rfl
  · simp only [parse_bracket_segment]
    rw [if_pos hg, hdl, pyParseInt_natToDec]
    simp
  · simp only [parse_bracket_segment]
    rw [if_neg (by rw [hg]; simp [PIPE, TAB]), if_pos hg, hdl, pyParseInt_natToDec]
    simp

/-! C3 infrastructure: `findFrom` decompositions. -/

theorem findIdx?_append_left_none (p : Char → Bool) (a b : Str)
    (h : ∀ x ∈ a, p x = false) :
    (a ++ b).findIdx? p = (b.findIdx? p).map (· + a.length) := by
  induction a with
  | nil => simp
  | cons c a2 ih =>
    have hc : p c = false := h c (by simp)
    simp only [List.cons_append, List.findIdx?_cons, hc, Bool.false_eq_true,
      if_false, List.findIdx?_succ]
    rw [ih (fun x hx => h x (by simp [hx]))]
    simp only [Option.map_map]
    congr 1

theorem findFrom_decomp (s pre post : Str) (t : Char) (start : Nat)
    (hdrop : s.drop start = pre ++ t :: post) (hpre : t ∉ pre) :
    findFrom s t start = some (start + pre.length) := by
  simp only [findFrom, hdrop]
  rw [findIdx?_append_left_none _ _ _ (by
    intro x hx
    simp only [decide_eq_false_iff_not]
    intro rfl2
    exact hpre (rfl2 ▸ hx))]
  simp [List.findIdx?_cons]

theorem findFrom_none_decomp (s : Str) (t : Char) (start : Nat)
    (h : t ∉ s.drop start) : findFrom s t start = none := by
  simp only [findFrom]
  rw [List.findIdx?_eq_none_iff.mpr (by
    intro x hx
    simp only [decide_eq_false_iff_not]
    intro rfl2
    exact h (rfl2 ▸ hx))]



/-! C3 infrastructure: the closing-quote scan over escaped content. -/

theorem findClosingQuoteAux_succ (content : Str) (i f : Nat) :
    findClosingQuoteAux content i (f + 1) =
      if h : i < content.length then
        if content.get ⟨i, h⟩ = '\\' ∧ i + 1 < content.length then
          findClosingQuoteAux content (i + 2) f
        else if content.get ⟨i, h⟩ = '"' then some i
        else findClosingQuoteAux content (i + 1) f
      else none := by
  rw [findClosingQuoteAux]
  split
  · simp only [Bool.and_eq_true, decide_eq_true_eq]
  · rfl

theorem fcq_bridge (content : Str) : ∀ fuel i, content.length - i < fuel →
    findClosingQuoteAux content i fuel = fcqList (content.drop i) i := by
  intro fuel
  induction fuel with
  | zero => intro i h; omega
  | succ f ih =>
    intro i hlen
    rw [findClosingQuoteAux_succ]
    by_cases h : i < content.length
    · rw [dif_pos h]
      have hdrop : content.drop i = content.get ⟨i, h⟩ :: content.drop (i + 1) :=
        List.drop_eq_get_cons h
      have hne_iff : content.drop (i + 1) ≠ [] ↔ i + 1 < content.length := by
        rw [Ne, List.drop_eq_nil_iff]
        omega
      by_cases hb1 : content.get ⟨i, h⟩ = '\\'
      · by_cases hb2 : i + 1 < content.length
        · rw [if_pos ⟨hb1, hb2⟩, hdrop, fcqList,
            if_pos ⟨hb1, hne_iff.mpr hb2⟩, List.tail_drop]
          exact ih (i + 2) (by omega)
        · have hLneg : ¬(content.get ⟨i, h⟩ = '\\' ∧ i + 1 < content.length) :=
            fun hc => hb2 hc.2
          have hRneg : ¬(content.get ⟨i, h⟩ = '\\' ∧ content.drop (i + 1) ≠ []) :=
            fun hc => hb2 (hne_iff.mp hc.2)
          rw [if_neg hLneg]
          by_cases hq : content.get ⟨i, h⟩ = '"'
          · rw [if_pos hq, hdrop, fcqList, if_neg hRneg, if_pos hq]
          · rw [if_neg hq, hdrop, fcqList, if_neg hRneg, if_neg hq]
            exact ih (i + 1) (by omega)
      · have hLneg : ¬(content.get ⟨i, h⟩ = '\\' ∧ i + 1 < content.length) :=
          fun hc => hb1 hc.1
        have hRneg : ¬(content.get ⟨i, h⟩ = '\\' ∧ content.drop (i + 1) ≠ []) :=
          fun hc => hb1 hc.1
        rw [if_neg hLneg]
        by_cases hq : content.get ⟨i, h⟩ = '"'
        · rw [if_pos hq, hdrop, fcqList, if_neg hRneg, if_pos hq]
        · rw [if_neg hq, hdrop, fcqList, if_neg hRneg, if_neg hq]
          exact ih (i + 1) (by omega)
    · rw [dif_neg h]
      have hdrop : content.drop i = [] := by
        rw [List.drop_eq_nil_iff]
        omega
      rw [hdrop, fcqList]

theorem escape_string_nil : escape_string [] = [] := by
  simp [escape_string, replaceChar]

theorem fcqList_escChar (c : Char) (rest : Str) (i : Nat) :
    fcqList (escChar c ++ rest) i = fcqList rest (i + (escChar c).length) := by
  by_cases h1 : c = '\\'
  · subst h1
    rw [show escChar '\\' = ['\\', '\\'] from by simp [escChar]]
    rw [show (['\\', '\\'] ++ rest : Str) = '\\' :: '\\' :: rest from rfl]
    rw [fcqList]
    rw [if_pos ⟨rfl, by simp⟩]
    simp
  · by_cases h2 : c = '"'
    · subst h2
      rw [show escChar '"' = ['\\', '"'] from by simp [escChar]]
      rw [show (['\\', '"'] ++ rest : Str) = '\\' :: '"' :: rest from rfl]
      rw [fcqList]
      rw [if_pos ⟨rfl, by simp⟩]
      simp
    · by_cases h3 : c = '\n'
      · subst h3
        rw [show escChar '\n' = ['\\', 'n'] from by simp [escChar]]
        rw [show (['\\', 'n'] ++ rest : Str) = '\\' :: 'n' :: rest from rfl]
        rw [fcqList]
        rw [if_pos ⟨rfl, by simp⟩]
        simp
      · by_cases h4 : c = '\r'
        · subst h4
          rw [show escChar '\r' = ['\\', 'r'] from by simp [escChar]]
          rw [show (['\\', 'r'] ++ rest : Str) = '\\' :: 'r' :: rest from rfl]
          rw [fcqList]
          rw [if_pos ⟨rfl, by simp⟩]
          simp
        · by_cases h5 : c = '\t'
          · subst h5
            rw [show escChar '\t' = ['\\', 't'] from by simp [escChar]]
            rw [show (['\\', 't'] ++ rest : Str) = '\\' :: 't' :: rest from rfl]
            rw [fcqList]
            rw [if_pos ⟨rfl, by simp⟩]
            simp
          · have he : escChar c = [c] := by
              simp [escChar, h1, h2, h3, h4, h5]
            rw [he, List.singleton_append, fcqList]
            rw [if_neg (fun hc => h1 hc.1), if_neg h2]
            simp

theorem fcqList_esc (k : Str) : ∀ i rest,
    fcqList (escape_string k ++ rest) i =
      fcqList rest (i + (escape_string k).length) := by
  induction k with
  | nil =>
    intro i rest
    rw [escape_string_nil]
    simp
  | cons c k2 ih =>
    intro i rest
    rw [escape_cons, List.append_assoc, fcqList_escChar, ih]
    congr 1
    simp only [List.length_append]
    omega

theorem fcqList_quote (rest : Str) (i : Nat) : fcqList ('"' :: rest) i = some i := by
  rw [fcqList]
  rw [if_neg (fun hc => absurd hc.1 (by decide)), if_pos rfl]

theorem find_closing_quote_quoted (k rest : Str) :
    find_closing_quote ('"' :: escape_string k ++ '"' :: rest) 0 =
      some ((escape_string k).length + 1) := by
  show findClosingQuoteAux ('"' :: escape_string k ++ '"' :: rest) 1 _ = _
  rw [fcq_bridge _ _ 1 (by omega)]
  rw [show ('"' :: escape_string k ++ '"' :: rest : Str).drop 1 =
        escape_string k ++ '"' :: rest from rfl]
  rw [fcqList_esc, fcqList_quote]
  congr 1
  omega


/-! C3 infrastructure: string-literal and key round-trips. -/

theorem unescape_escape (s : Str) :
    unescape_string (escape_string s) = .ok s := by
  induction s with
  | nil => simp [escape_string, replaceChar, unescape_string]
  | cons c rest ih => rw [escape_cons, unescape_escChar, ih]

theorem quoted_reassoc (k rest : Str) :
    '"' :: escape_string k ++ '"' :: rest
      = ('"' :: escape_string k ++ ['"']) ++ rest := by
  simp

theorem pyStrip_quoted (k : Str) :
    pyStrip ('"' :: escape_string k ++ ['"']) = '"' :: escape_string k ++ ['"'] := by
  apply strip_eq_of_no_ws
  · intro c t h
    have hc : c = '"' := by
      have h2 := congrArg List.head? h
      simp only [List.head?_cons, List.cons_append, Option.some.injEq] at h2
      exact h2.symm
    subst hc
    decide
  · intro t c h
    have hc : c = '"' := by
      have h2 := congrArg List.getLast? h
      rw [show ('"' :: escape_string k ++ ['"'] : Str)
            = ('"' :: escape_string k) ++ ['"'] from by simp] at h2
      rw [List.getLast?_concat, List.getLast?_concat] at h2
      exact (Option.some.injEq _ _ ▸ h2).symm
    subst hc
    decide

theorem parse_string_literal_quoted (k : Str) :
    parse_string_literal ('"' :: escape_string k ++ ['"']) = .ok k := by
  have hfcq : find_closing_quote ('"' :: escape_string k ++ ['"']) 0
      = some ((escape_string k).length + 1) := find_closing_quote_quoted k []
  simp only [parse_string_literal, pyStrip_quoted, List.head?_cons, ne_eq,
    Option.some.injEq, not_true_eq_false, if_false, hfcq]
  have hlen : (escape_string k).length + 1
      = ('"' :: escape_string k ++ ['"'] : Str).length - 1 := by simp
  rw [if_neg (not_not_intro hlen)]
  rw [List.take_left' (by simp)]
  simp only [List.drop_one, List.tail_cons]
  exact unescape_escape k

theorem parse_string_literal_unquoted (t : Str) (h : pyStrip t = t)
    (hh : t.head? ≠ some '"') : parse_string_literal t = .ok t := by
  simp only [parse_string_literal, h]
  rw [if_pos hh]

theorem valid_key_chars (k : Str) (h : is_valid_unquoted_key k = true) :
    ∀ c ∈ k, (isWordChar c || c = '.') = true := by
  cases k with
  | nil => simp [is_valid_unquoted_key] at h
  | cons c0 rest =>
    simp only [is_valid_unquoted_key, Bool.and_eq_true] at h
    intro c hc
    rcases List.mem_cons.mp hc with rfl | hm
    · have h1 := h.1
      simp only [isAlphaUnder, isWordChar, Bool.or_eq_true] at h1 ⊢
      tauto
    · have h2 := (List.all_eq_true.mp h.2) c hm
      simpa using h2

theorem wordDot_not_special (c : Char) (h : (isWordChar c || c = '.') = true) :
    c ≠ '"' ∧ c ≠ '\\' ∧ c ≠ '[' ∧ c ≠ ']' ∧ c ≠ '{' ∧ c ≠ '}' ∧ c ≠ ':' ∧
      c ≠ ',' ∧ c ≠ '|' ∧ isPySpace c = false := by
  have hs : isPySpace c = false := by
    cases hp : isPySpace c
    · rfl
    · exfalso
      simp only [isPySpace, Bool.or_eq_true, decide_eq_true_eq] at hp
      rcases hp with ((((rfl | rfl) | rfl) | rfl) | rfl) | rfl <;>
        revert h <;> decide
  refine ⟨?_, ?_, ?_, ?_, ?_, ?_, ?_, ?_, ?_, hs⟩ <;>
    (intro h2; subst h2; revert h; decide)

theorem pyStrip_valid_key (k : Str) (h : is_valid_unquoted_key k = true) :
    pyStrip k = k := by
  apply strip_eq_of_no_ws
  · intro c t hct
    have hc : c ∈ k := by rw [hct]; simp
    obtain ⟨-, -, -, -, -, -, -, -, -, hws⟩ :=
      wordDot_not_special c (valid_key_chars k h c hc)
    exact hws
  · intro t c hct
    have hc : c ∈ k := by rw [hct]; simp
    obtain ⟨-, -, -, -, -, -, -, -, -, hws⟩ :=
      wordDot_not_special c (valid_key_chars k h c hc)
    exact hws

theorem encode_key_quoted (k : Str) (h : is_valid_unquoted_key k = false) :
    encode_key k = '"' :: escape_string k ++ ['"'] := by
  simp [encode_key, h]

theorem encode_key_unquoted (k : Str) (h : is_valid_unquoted_key k = true) :
    encode_key k = k := by
  simp [encode_key, h]

theorem valid_key_head_ne_quote (k : Str) (h : is_valid_unquoted_key k = true) :
    k.head? ≠ some '"' := by
  cases k with
  | nil => simp [is_valid_unquoted_key] at h
  | cons c r =>
    simp only [is_valid_unquoted_key, Bool.and_eq_true] at h
    simp only [List.head?_cons, ne_eq, Option.some.injEq]
    intro hc
    subst hc
    have h1 := h.1
    simp [isAlphaUnder] at h1

theorem parse_string_literal_encode_key (f : Str) :
    parse_string_literal (encode_key f) = .ok f := by
  cases hv : is_valid_unquoted_key f
  · rw [encode_key_quoted f hv]
    exact parse_string_literal_quoted f
  · rw [encode_key_unquoted f hv]
    exact parse_string_literal_unquoted f (pyStrip_valid_key f hv)
      (valid_key_head_ne_quote f hv)

theorem pyStrip_encode_key (f : Str) :
    pyStrip (encode_key f) = encode_key f := by
  cases hv : is_valid_unquoted_key f
  · rw [encode_key_quoted f hv]
    exact pyStrip_quoted f
  · rw [encode_key_unquoted f hv]
    exact pyStrip_valid_key f hv

theorem encode_key_ne_nil (f : Str) : encode_key f ≠ [] := by
  cases hv : is_valid_unquoted_key f
  · rw [encode_key_quoted f hv]
    simp
  · rw [encode_key_unquoted f hv]
    cases f with
    | nil => simp [is_valid_unquoted_key] at hv
    | cons c r => simp

theorem parseFieldList_encode (fs : List Str) :
    parseFieldList (fs.map encode_key) = .ok fs := by
  induction fs with
  | nil => rfl
  | cons f fs2 ih =>
    simp only [List.map_cons, parseFieldList, pyStrip_encode_key]
    rw [if_neg (encode_key_ne_nil f), parse_string_literal_encode_key, ih]


/-! C3 infrastructure: the delimiter-splitting scan over encoded tokens. -/

theorem pdvStep_plain (delimiter c : Char) (s cur : Str)
    (h1 : c ≠ '"') (h2 : c ≠ delimiter) :
    pdvGo delimiter (c :: s) false false cur
      = pdvGo delimiter s false false (cur ++ [c]) := by
  rw [pdvGo]
  simp [h1, h2]

theorem pdvStep_esc (delimiter : Char) (x : Char) (s cur : Str) :
    pdvGo delimiter ('\\' :: x :: s) true false cur
      = pdvGo delimiter s true false (cur ++ ['\\', x]) := by
  rw [pdvGo]
  simp
  rw [pdvGo]
  simp

theorem pdvStep_normal_inq (delimiter c : Char) (s cur : Str)
    (h1 : c ≠ '\\') (h2 : c ≠ '"') :
    pdvGo delimiter (c :: s) true false cur
      = pdvGo delimiter s true false (cur ++ [c]) := by
  rw [pdvGo]
  simp [h1, h2]

theorem pdvStep_openq (delimiter : Char) (s cur : Str) :
    pdvGo delimiter ('"' :: s) false false cur
      = pdvGo delimiter s true false (cur ++ ['"']) := by
  rw [pdvGo]
  simp

theorem pdvStep_closeq (delimiter : Char) (s cur : Str) :
    pdvGo delimiter ('"' :: s) true false cur
      = pdvGo delimiter s false false (cur ++ ['"']) := by
  rw [pdvGo]
  simp

theorem pdvStep_delim (delimiter : Char) (s cur : Str) (h : delimiter ≠ '"') :
    pdvGo delimiter (delimiter :: s) false false cur
      = pyStrip cur :: pdvGo delimiter s false false [] := by
  rw [pdvGo]
  simp [h]

theorem pdv_scan_plain (delimiter : Char) (t : Str)
    (h : ∀ c ∈ t, c ≠ '"' ∧ c ≠ delimiter) :
    ∀ rest cur, pdvGo delimiter (t ++ rest) false false cur
      = pdvGo delimiter rest false false (cur ++ t) := by
  induction t with
  | nil =>
    intro rest cur
    simp
  | cons c t2 ih =>
    intro rest cur
    obtain ⟨h1, h2⟩ := h c (by simp)
    rw [List.cons_append, pdvStep_plain delimiter c _ cur h1 h2]
    rw [ih (fun x hx => h x (List.mem_cons_of_mem _ hx)) rest (cur ++ [c])]
    simp

theorem pdv_scan_escChar (delimiter : Char) (c : Char) :
    ∀ rest cur, pdvGo delimiter (escChar c ++ rest) true false cur
      = pdvGo delimiter rest true false (cur ++ escChar c) := by
  intro rest cur
  by_cases h1 : c = '\\'
  · subst h1
    rw [show escChar '\\' = ['\\', '\\'] from by simp [escChar]]
    rw [show ((['\\', '\\'] : Str) ++ rest) = '\\' :: '\\' :: rest from rfl]
    rw [pdvStep_esc]
  · by_cases h2 : c = '"'
    · subst h2
      rw [show escChar '"' = ['\\', '"'] from by simp [escChar]]
      rw [show ((['\\', '"'] : Str) ++ rest) = '\\' :: '"' :: rest from rfl]
      rw [pdvStep_esc]
    · by_cases h3 : c = '\n'
      · subst h3
        rw [show escChar '\n' = ['\\', 'n'] from by simp [escChar]]
        rw [show ((['\\', 'n'] : Str) ++ rest) = '\\' :: 'n' :: rest from rfl]
        rw [pdvStep_esc]
      · by_cases h4 : c = '\r'
        · subst h4
          rw [show escChar '\r' = ['\\', 'r'] from by simp [escChar]]
          rw [show ((['\\', 'r'] : Str) ++ rest) = '\\' :: 'r' :: rest from rfl]
          rw [pdvStep_esc]
        · by_cases h5 : c = '\t'
          · subst h5
            rw [show escChar '\t' = ['\\', 't'] from by simp [escChar]]
            rw [show ((['\\', 't'] : Str) ++ rest) = '\\' :: 't' :: rest from rfl]
            rw [pdvStep_esc]
          · have he : escChar c = [c] := by
              simp [escChar, h1, h2, h3, h4, h5]
            rw [he, List.singleton_append, pdvStep_normal_inq delimiter c _ cur h1 h2]

theorem pdv_scan_esc (delimiter : Char) (k : Str) :
    ∀ rest cur, pdvGo delimiter (escape_string k ++ rest) true false cur
      = pdvGo delimiter rest true false (cur ++ escape_string k) := by
  induction k with
  | nil =>
    intro rest cur
    rw [escape_string_nil]
    simp
  | cons c k2 ih =>
    intro rest cur
    rw [escape_cons, List.append_assoc, pdv_scan_escChar, ih]
    simp [List.append_assoc]

theorem pdv_scan_quoted (delimiter : Char) (k : Str) :
    ∀ rest cur, pdvGo delimiter (('"' :: escape_string k ++ ['"']) ++ rest) false false cur
      = pdvGo delimiter rest false false (cur ++ ('"' :: escape_string k ++ ['"'])) := by
  intro rest cur
  rw [show (('"' :: escape_string k ++ ['"']) ++ rest : Str)
        = '"' :: (escape_string k ++ ('"' :: rest)) from by simp]
  rw [pdvStep_openq, pdv_scan_esc, pdvStep_closeq]
  simp

theorem pdv_scan_token (delimiter : Char) (t : Str)
    (h : (∃ k2, t = '"' :: escape_string k2 ++ ['"'])
      ∨ (∀ c ∈ t, c ≠ '"' ∧ c ≠ delimiter)) :
    ∀ rest cur, pdvGo delimiter (t ++ rest) false false cur
      = pdvGo delimiter rest false false (cur ++ t) := by
  rcases h with ⟨k2, rfl⟩ | hplain
  · exact pdv_scan_quoted delimiter k2
  · exact pdv_scan_plain delimiter t hplain

theorem pdv_join (delimiter : Char) (hq : delimiter ≠ '"') (ts : List Str)
    (hts : ∀ t ∈ ts, (∃ k2, t = '"' :: escape_string k2 ++ ['"'])
      ∨ (∀ c ∈ t, c ≠ '"' ∧ c ≠ delimiter)) (hne : ts ≠ []) :
    pdvGo delimiter (joinSep delimiter ts) false false [] = ts.map pyStrip := by
  induction ts with
  | nil => exact absurd rfl hne
  | cons t ts2 ih =>
    cases ts2 with
    | nil =>
      have h := pdv_scan_token delimiter t (hts t (by simp)) [] []
      simp only [List.append_nil, List.nil_append] at h
      rw [show joinSep delimiter [t] = t from rfl, h, pdvGo]
      simp
    | cons t2 ts3 =>
      have h := pdv_scan_token delimiter t (hts t (by simp))
        (delimiter :: joinSep delimiter (t2 :: ts3)) []
      simp only [List.nil_append] at h
      rw [show joinSep delimiter (t :: t2 :: ts3)
            = t ++ delimiter :: joinSep delimiter (t2 :: ts3) from rfl]
      rw [h, pdvStep_delim delimiter _ t hq]
      rw [ih (fun x hx => hts x (List.mem_cons_of_mem _ hx)) (by simp)]
      simp

theorem parse_delimited_values_join (delimiter : Char) (hq : delimiter ≠ '"')
    (ts : List Str)
    (hts : ∀ t ∈ ts, (∃ k2, t = '"' :: escape_string k2 ++ ['"'])
      ∨ (∀ c ∈ t, c ≠ '"' ∧ c ≠ delimiter))
    (hstrip : ∀ t ∈ ts, pyStrip t = t)
    (hnil : ∀ t ∈ ts, t ≠ []) (hne : ts ≠ []) :
    parse_delimited_values (joinSep delimiter ts) delimiter = ts := by
  have hmap : ts.map pyStrip = ts := by
    rw [List.map_congr_left hstrip]
    simp
  unfold parse_delimited_values
  rw [pdv_join delimiter hq ts hts hne, hmap]
  rw [if_neg ?hcond]
  case hcond =>
    intro hcontra
    cases ts with
    | nil => exact hne rfl
    | cons t ts2 =>
      have h2 : t = ([] : Str) := by
        have h3 := congrArg List.head? hcontra
        simp only [List.head?_cons] at h3
        exact Option.some.inj h3
      exact hnil t (by simp) h2

/-! C3 infrastructure: character membership facts for encoded headers. -/

theorem mem_escChar (c x : Char) (h : x ∈ escChar c) :
    x = c ∨ x = '\\' ∨ x = 'n' ∨ x = 'r' ∨ x = 't' ∨ x = '"' := by
  by_cases h1 : c = '\\'
  · subst h1
    rw [show escChar '\\' = ['\\', '\\'] from by simp [escChar]] at h
    simp at h
    rcases h with rfl | rfl <;> simp
  · by_cases h2 : c = '"'
    · subst h2
      rw [show escChar '"' = ['\\', '"'] from by simp [escChar]] at h
      simp at h
      rcases h with rfl | rfl <;> simp
    · by_cases h3 : c = '\n'
      · subst h3
        rw [show escChar '\n' = ['\\', 'n'] from by simp [escChar]] at h
        simp at h
        rcases h with rfl | rfl <;> simp
      · by_cases h4 : c = '\r'
        · subst h4
          rw [show escChar '\r' = ['\\', 'r'] from by simp [escChar]] at h
          simp at h
          rcases h with rfl | rfl <;> simp
        · by_cases h5 : c = '\t'
          · subst h5
            rw [show escChar '\t' = ['\\', 't'] from by simp [escChar]] at h
            simp at h
            rcases h with rfl | rfl <;> simp
          · rw [show escChar c = [c] from by simp [escChar, h1, h2, h3, h4, h5]] at h
            simp at h
            exact Or.inl h

theorem mem_escape_string (k : Str) (x : Char) (h : x ∈ escape_string k) :
    x ∈ k ∨ x = '\\' ∨ x = 'n' ∨ x = 'r' ∨ x = 't' ∨ x = '"' := by
  induction k with
  | nil =>
    rw [escape_string_nil] at h
    simp at h
  | cons c k2 ih =>
    rw [escape_cons] at h
    rcases List.mem_append.mp h with hm | hm
    · rcases mem_escChar c x hm with rfl | hr
      · exact Or.inl (by simp)
      · exact Or.inr hr
    · rcases ih hm with hk | hr
      · exact Or.inl (List.mem_cons_of_mem _ hk)
      · exact Or.inr hr

theorem not_mem_encode_key_brace (f : Str) (h : '}' ∉ f) : '}' ∉ encode_key f := by
  cases hv : is_valid_unquoted_key f
  · rw [encode_key_quoted f hv]
    intro hm
    rcases List.mem_cons.mp hm with hc | hm2
    · exact absurd hc (by decide)
    · rcases List.mem_append.mp hm2 with hm3 | hm3
      · rcases mem_escape_string f '}' hm3 with hk | hr
        · exact h hk
        · rcases hr with h5 | h5 | h5 | h5 | h5 <;> exact absurd h5 (by decide)
      · simp at hm3
  · rw [encode_key_unquoted f hv]
    exact h

theorem mem_joinSep (sep : Char) (ts : List Str) (x : Char)
    (h : x ∈ joinSep sep ts) : x = sep ∨ ∃ t ∈ ts, x ∈ t := by
  induction ts with
  | nil => simp [joinSep] at h
  | cons t ts2 ih =>
    cases ts2 with
    | nil =>
      rw [show joinSep sep [t] = t from rfl] at h
      exact Or.inr ⟨t, by simp, h⟩
    | cons t2 ts3 =>
      rw [show joinSep sep (t :: t2 :: ts3)
            = t ++ sep :: joinSep sep (t2 :: ts3) from rfl] at h
      rcases List.mem_append.mp h with hm | hm
      · exact Or.inr ⟨t, by simp, hm⟩
      · rcases List.mem_cons.mp hm with rfl | hm2
        · exact Or.inl rfl
        · rcases ih hm2 with rfl | ⟨t3, ht3, hx⟩
          · exact Or.inl rfl
          · exact Or.inr ⟨t3, List.mem_cons_of_mem _ ht3, hx⟩

theorem natToDec_isDig (n : Nat) : ∀ c ∈ natToDec n, isDig c = true := by
  obtain ⟨-, h2, -⟩ := natToDec_spec n
  exact List.all_eq_true.mp h2

theorem isDig_ne_special (c : Char) (h : isDig c = true) :
    c ≠ '[' ∧ c ≠ ']' ∧ c ≠ '{' ∧ c ≠ '}' ∧ c ≠ ':' := by
  refine ⟨?_, ?_, ?_, ?_, ?_⟩ <;> (intro h2; subst h2; revert h; decide)

theorem findFrom_lb (s : Str) (t : Char) (start : Nat) (pre rest2 : Str)
    (hdrop : s.drop start = pre ++ rest2) (hpre : t ∉ pre) :
    ∀ j, findFrom s t start = some j → start + pre.length ≤ j := by
  intro j hj
  simp only [findFrom, hdrop] at hj
  rw [findIdx?_append_left_none _ _ _ (by
    intro x hx
    simp only [decide_eq_false_iff_not]
    intro rfl2
    exact hpre (rfl2 ▸ hx))] at hj
  rcases hfind : rest2.findIdx? (· = t) with _ | j2
  · rw [hfind] at hj
    simp at hj
  · rw [hfind] at hj
    simp at hj
    omega

theorem field_token_clean (delim : Char)
    (hd : delim = ',' ∨ delim = '\t' ∨ delim = '|') (f : Str) :
    (∃ k2, encode_key f = '"' :: escape_string k2 ++ ['"'])
      ∨ (∀ c ∈ encode_key f, c ≠ '"' ∧ c ≠ delim) := by
  cases hv : is_valid_unquoted_key f
  · exact Or.inl ⟨f, encode_key_quoted f hv⟩
  · refine Or.inr ?_
    rw [encode_key_unquoted f hv]
    intro c hc
    obtain ⟨hq, -, -, -, -, -, -, hcom, hpipe, hws⟩ :=
      wordDot_not_special c (valid_key_chars f hv c hc)
    refine ⟨hq, ?_⟩
    rcases hd with rfl | rfl | rfl
    · exact hcom
    · intro h2
      rw [h2] at hws
      simp [isPySpace] at hws
    · exact hpipe


/-! C3 infrastructure: locating the bracket and parsing the key part. -/

theorem headerBracketStart_nokey (rest : Str) :
    headerBracketStart ('[' :: rest) = some 0 := by
  have htrim : pyLStrip ('[' :: rest) = '[' :: rest := by
    simp only [pyLStrip, List.dropWhile_cons]
    rw [if_neg (by decide)]
  simp only [headerBracketStart, htrim, List.head?_cons]
  rw [if_neg (by simp)]
  simpa using findFrom_decomp ('[' :: rest) [] rest '[' 0 (by simp) (by simp)

theorem headerBracketStart_unquoted (k rest : Str)
    (hv : is_valid_unquoted_key k = true) :
    headerBracketStart (k ++ '[' :: rest) = some k.length := by
  obtain ⟨c, k2, rfl⟩ : ∃ c k2, k = c :: k2 := by
    cases k with
    | nil => simp [is_valid_unquoted_key] at hv
    | cons c k2 => exact ⟨c, k2, rfl⟩
  obtain ⟨hq, -, -, -, -, -, -, -, -, hws⟩ :=
    wordDot_not_special c (valid_key_chars _ hv c (by simp))
  have htrim : pyLStrip ((c :: k2) ++ '[' :: rest) = (c :: k2) ++ '[' :: rest := by
    rw [List.cons_append]
    simp [pyLStrip, List.dropWhile_cons, hws]
  have hhead : (((c :: k2) ++ '[' :: rest : Str)).head? = some c := by simp
  have hnotin : '[' ∉ c :: k2 := by
    intro hm
    obtain ⟨-, -, h3, -, -, -, -, -, -, -⟩ :=
      wordDot_not_special '[' (valid_key_chars _ hv '[' hm)
    exact h3 rfl
  simp only [headerBracketStart, htrim, hhead]
  rw [if_neg (by simp [hq])]
  simpa using findFrom_decomp ((c :: k2) ++ '[' :: rest) (c :: k2) rest '[' 0
    (by simp) hnotin

theorem headerBracketStart_quoted (k rest : Str) :
    headerBracketStart (('"' :: escape_string k ++ ['"']) ++ '[' :: rest)
      = some ((escape_string k).length + 2) := by
  have hC : (('"' :: escape_string k ++ ['"']) ++ '[' :: rest : Str)
      = '"' :: (escape_string k ++ '"' :: '[' :: rest) := by simp
  rw [hC]
  have htrim : pyLStrip ('"' :: (escape_string k ++ '"' :: '[' :: rest))
      = '"' :: (escape_string k ++ '"' :: '[' :: rest) := by
    simp only [pyLStrip, List.dropWhile_cons]
    rw [if_neg (by decide)]
  have hfcq : find_closing_quote ('"' :: (escape_string k ++ '"' :: '[' :: rest)) 0
      = some ((escape_string k).length + 1) := by
    rw [← List.cons_append]
    exact find_closing_quote_quoted k ('[' :: rest)
  have hdropq : ('"' :: (escape_string k ++ '"' :: '[' :: rest) : Str).drop
      ((escape_string k).length + 1 + 1) = '[' :: rest := by
    rw [show ('"' :: (escape_string k ++ '"' :: '[' :: rest) : Str)
          = (('"' :: escape_string k) ++ ['"']) ++ '[' :: rest from by simp]
    exact List.drop_left' (by simp)
  have hff : findFrom ('"' :: (escape_string k ++ '"' :: '[' :: rest)) '['
      ((escape_string k).length + 1 + 1) = some ((escape_string k).length + 1 + 1) := by
    have h2 := findFrom_decomp ('"' :: (escape_string k ++ '"' :: '[' :: rest)) [] rest
      '[' ((escape_string k).length + 1 + 1) (by rw [hdropq]; simp) (by simp)
    simpa using h2
  simp only [headerBracketStart, htrim, List.head?_cons, hfcq, hdropq,
    eq_self_iff_true, if_true, ne_eq, Option.some.injEq, not_true_eq_false,
    if_false, Nat.sub_self, Nat.zero_add, hff]

theorem headerParseKey_zero (content : Str) :
    headerParseKey content 0 = .ok none := by
  simp [headerParseKey]

theorem headerParseKey_unquoted (k rest : Str)
    (hv : is_valid_unquoted_key k = true) :
    headerParseKey (k ++ rest) k.length = .ok (some k) := by
  have hk0 : k ≠ [] := by
    cases k with
    | nil => simp [is_valid_unquoted_key] at hv
    | cons c k2 => simp
  have hpos : k.length > 0 := List.length_pos.mpr hk0
  simp only [headerParseKey, List.take_left, pyStrip_valid_key k hv]
  rw [if_pos hpos]
  rw [if_neg (valid_key_head_ne_quote k hv)]
  rw [if_neg hk0]

theorem headerParseKey_quoted (k rest : Str) :
    headerParseKey (('"' :: escape_string k ++ ['"']) ++ rest)
      ((escape_string k).length + 2) = .ok (some k) := by
  have htake : (('"' :: escape_string k ++ ['"']) ++ rest : Str).take
      ((escape_string k).length + 2) = '"' :: escape_string k ++ ['"'] :=
    List.take_left' (by simp)
  simp only [headerParseKey, htake, pyStrip_quoted]
  rw [if_pos (by omega)]
  rw [if_pos (by simp)]
  rw [parse_string_literal_quoted]

/-! C3 infrastructure: assembling `parse_array_header_line` on a formatted
header, no-fields shape. -/

theorem pyStrip_nil : pyStrip ([] : Str) = [] := by
  simp [pyStrip, pyLStrip, pyRStrip]

theorem header_assembly_nofields (K D : Str) (delim : Char) (krec : Option Str)
    (len : Nat)
    (hbs : headerBracketStart (K ++ '[' :: (D ++ [']', ':'])) = some K.length)
    (hkey : headerParseKey (K ++ '[' :: (D ++ [']', ':'])) K.length = .ok krec)
    (hD : ']' ∉ D)
    (hseg : parse_bracket_segment D delim = some (len, delim)) :
    parse_array_header_line (K ++ '[' :: (D ++ [']', ':'])) delim
      = .ok (some ({ key := krec, length := len, delimiter := delim,
                     fields := none }, none)) := by
  have hBE : findFrom (K ++ '[' :: (D ++ [']', ':'])) ']' K.length
      = some (K.length + (D.length + 1)) := by
    have h2 := findFrom_decomp (K ++ '[' :: (D ++ [']', ':'])) ('[' :: D) [':'] ']'
      K.length (by rw [List.drop_left]; simp) (by simp [hD])
    simpa using h2
  have hdropB : (K ++ '[' :: (D ++ [']', ':']) : Str).drop
      (K.length + (D.length + 1)) = [']', ':'] := by
    rw [show (K ++ '[' :: (D ++ [']', ':']) : Str)
          = (K ++ '[' :: D) ++ [']', ':'] from by simp]
    exact List.drop_left' (by simp)
  have hBrace : findFrom (K ++ '[' :: (D ++ [']', ':'])) '{'
      (K.length + (D.length + 1)) = none := by
    apply findFrom_none_decomp
    rw [hdropB]
    decide
  have hmax : max (K.length + (D.length + 1)) (K.length + (D.length + 1) + 1)
      = K.length + (D.length + 1) + 1 := Nat.max_eq_right (by omega)
  have hdropBB : (K ++ '[' :: (D ++ [']', ':']) : Str).drop
      (K.length + (D.length + 1) + 1) = [':'] := by
    rw [show (K ++ '[' :: (D ++ [']', ':']) : Str)
          = ((K ++ '[' :: D) ++ [']']) ++ [':'] from by simp]
    exact List.drop_left' (by simp; omega)
  have hColon : findFrom (K ++ '[' :: (D ++ [']', ':'])) ':'
      (K.length + (D.length + 1) + 1) = some (K.length + (D.length + 1) + 1) := by
    have h2 := findFrom_decomp (K ++ '[' :: (D ++ [']', ':'])) [] [] ':'
      (K.length + (D.length + 1) + 1) (by rw [hdropBB]; rfl) (by simp)
    simpa using h2
  have hdropEnd : (K ++ '[' :: (D ++ [']', ':']) : Str).drop
      (K.length + (D.length + 1) + 1 + 1) = [] := by
    rw [List.drop_eq_nil_iff]
    simp
    omega
  have htakeB : (K ++ '[' :: (D ++ [']', ':']) : Str).take
      (K.length + (D.length + 1)) = (K ++ ['[']) ++ D := by
    rw [show (K ++ '[' :: (D ++ [']', ':']) : Str)
          = ((K ++ ['[']) ++ D) ++ [']', ':'] from by simp]
    exact List.take_left' (by simp)
  have hdropD : ((K ++ ['[']) ++ D).drop (K.length + 1) = D :=
    List.drop_left' (by simp)
  simp only [parse_array_header_line, hbs, hBE, hBrace, hmax, hColon, hkey,
    hdropEnd, pyStrip_nil, htakeB, hdropD, hseg, eq_self_iff_true, if_true]


/-! C3 infrastructure: assembling `parse_array_header_line` on a formatted
header with a `{fields}` block. -/

theorem header_assembly_fields (K D J : Str) (delim : Char) (krec : Option Str)
    (len : Nat) (fs : List Str)
    (hbs : headerBracketStart (K ++ '[' :: (D ++ ']' :: '{' :: (J ++ ['}', ':'])))
      = some K.length)
    (hkey : headerParseKey (K ++ '[' :: (D ++ ']' :: '{' :: (J ++ ['}', ':'])))
      K.length = .ok krec)
    (hD : ']' ∉ D)
    (hJ : '}' ∉ J)
    (hseg : parse_bracket_segment D delim = some (len, delim))
    (hparse : parseFieldList (parse_delimited_values J delim) = .ok fs) :
    parse_array_header_line (K ++ '[' :: (D ++ ']' :: '{' :: (J ++ ['}', ':']))) delim
      = .ok (some ({ key := krec, length := len, delimiter := delim,
                     fields := some fs }, none)) := by
  have hBE : findFrom (K ++ '[' :: (D ++ ']' :: '{' :: (J ++ ['}', ':']))) ']' K.length
      = some (K.length + (D.length + 1)) := by
    have h2 := findFrom_decomp (K ++ '[' :: (D ++ ']' :: '{' :: (J ++ ['}', ':'])))
      ('[' :: D) ('{' :: (J ++ ['}', ':'])) ']'
      K.length (by rw [List.drop_left]; simp) (by simp [hD])
    simpa using h2
  have hdropB : (K ++ '[' :: (D ++ ']' :: '{' :: (J ++ ['}', ':'])) : Str).drop
      (K.length + (D.length + 1)) = ']' :: '{' :: (J ++ ['}', ':']) := by
    rw [show (K ++ '[' :: (D ++ ']' :: '{' :: (J ++ ['}', ':'])) : Str)
          = (K ++ '[' :: D) ++ ']' :: '{' :: (J ++ ['}', ':']) from by simp]
    exact List.drop_left' (by simp)
  have hBrace : findFrom (K ++ '[' :: (D ++ ']' :: '{' :: (J ++ ['}', ':']))) '{'
      (K.length + (D.length + 1)) = some (K.length + (D.length + 1) + 1) := by
    have h2 := findFrom_decomp (K ++ '[' :: (D ++ ']' :: '{' :: (J ++ ['}', ':'])))
      [']'] (J ++ ['}', ':']) '{' (K.length + (D.length + 1))
      (by rw [hdropB]; rfl) (by decide)
    simpa using h2
  have hdropBr : (K ++ '[' :: (D ++ ']' :: '{' :: (J ++ ['}', ':'])) : Str).drop
      (K.length + (D.length + 1) + 1) = '{' :: (J ++ ['}', ':']) := by
    rw [show (K ++ '[' :: (D ++ ']' :: '{' :: (J ++ ['}', ':'])) : Str)
          = ((K ++ '[' :: D) ++ [']']) ++ '{' :: (J ++ ['}', ':']) from by simp]
    exact List.drop_left' (by simp; omega)
  have hFbe : findFrom (K ++ '[' :: (D ++ ']' :: '{' :: (J ++ ['}', ':']))) '}'
      (K.length + (D.length + 1) + 1)
      = some (K.length + (D.length + 1) + 1 + (J.length + 1)) := by
    have h2 := findFrom_decomp (K ++ '[' :: (D ++ ']' :: '{' :: (J ++ ['}', ':'])))
      ('{' :: J) [':'] '}' (K.length + (D.length + 1) + 1)
      (by rw [hdropBr]; simp) (by simp [hJ])
    simpa using h2
  have hmax : max (K.length + (D.length + 1))
      (K.length + (D.length + 1) + 1 + (J.length + 1) + 1)
      = K.length + (D.length + 1) + 1 + (J.length + 1) + 1 :=
    Nat.max_eq_right (by omega)
  have hdropCol : (K ++ '[' :: (D ++ ']' :: '{' :: (J ++ ['}', ':'])) : Str).drop
      (K.length + (D.length + 1) + 1 + (J.length + 1) + 1) = [':'] := by
    rw [show (K ++ '[' :: (D ++ ']' :: '{' :: (J ++ ['}', ':'])) : Str)
          = (((K ++ '[' :: D) ++ (']' :: '{' :: J)) ++ ['}']) ++ [':'] from by simp]
    exact List.drop_left' (by simp; omega)
  have hColon : findFrom (K ++ '[' :: (D ++ ']' :: '{' :: (J ++ ['}', ':']))) ':'
      (K.length + (D.length + 1) + 1 + (J.length + 1) + 1)
      = some (K.length + (D.length + 1) + 1 + (J.length + 1) + 1) := by
    have h2 := findFrom_decomp (K ++ '[' :: (D ++ ']' :: '{' :: (J ++ ['}', ':'])))
      [] [] ':' (K.length + (D.length + 1) + 1 + (J.length + 1) + 1)
      (by rw [hdropCol]; rfl) (by simp)
    simpa using h2
  have hdropEnd : (K ++ '[' :: (D ++ ']' :: '{' :: (J ++ ['}', ':'])) : Str).drop
      (K.length + (D.length + 1) + 1 + (J.length + 1) + 1 + 1) = [] := by
    rw [List.drop_eq_nil_iff]
    simp
    omega
  have htakeB : (K ++ '[' :: (D ++ ']' :: '{' :: (J ++ ['}', ':'])) : Str).take
      (K.length + (D.length + 1)) = (K ++ ['[']) ++ D := by
    rw [show (K ++ '[' :: (D ++ ']' :: '{' :: (J ++ ['}', ':'])) : Str)
          = ((K ++ ['[']) ++ D) ++ ']' :: '{' :: (J ++ ['}', ':']) from by simp]
    exact List.take_left' (by simp)
  have hdropD : ((K ++ ['[']) ++ D).drop (K.length + 1) = D :=
    List.drop_left' (by simp)
  have hlt1 : (K.length + (D.length + 1) + 1
      < K.length + (D.length + 1) + 1 + (J.length + 1) + 1) = True :=
    eq_true (by omega)
  have hlt2 : (K.length + (D.length + 1) + 1 + (J.length + 1)
      < K.length + (D.length + 1) + 1 + (J.length + 1) + 1) = True :=
    eq_true (by omega)
  have htakeF : (K ++ '[' :: (D ++ ']' :: '{' :: (J ++ ['}', ':'])) : Str).take
      (K.length + (D.length + 1) + 1 + (J.length + 1))
      = ((K ++ '[' :: (D ++ [']', '{'])) ++ J) := by
    rw [show (K ++ '[' :: (D ++ ']' :: '{' :: (J ++ ['}', ':'])) : Str)
          = ((K ++ '[' :: (D ++ [']', '{'])) ++ J) ++ ['}', ':'] from by simp]
    exact List.take_left' (by simp; omega)
  have hdropJ : ((K ++ '[' :: (D ++ [']', '{'])) ++ J).drop
      (K.length + (D.length + 1) + 1 + 1) = J :=
    List.drop_left' (by simp; omega)
  cases hci : findFrom (K ++ '[' :: (D ++ ']' :: '{' :: (J ++ ['}', ':']))) ':'
      (K.length + (D.length + 1)) with
  | none =>
    simp only [parse_array_header_line, hbs, hBE, hBrace, hci, hFbe, hmax, hColon,
      hkey, hdropEnd, pyStrip_nil, htakeB, hdropD, hseg, hlt1, hlt2, htakeF,
      hdropJ, hparse, eq_self_iff_true, if_true]
  | some ci =>
    have hlb := findFrom_lb (K ++ '[' :: (D ++ ']' :: '{' :: (J ++ ['}', ':']))) ':'
      (K.length + (D.length + 1)) [']', '{'] (J ++ ['}', ':'])
      (by rw [hdropB]; rfl) (by decide) ci hci
    have hcondb : decide (K.length + (D.length + 1) + 1 < ci) = true :=
      decide_eq_true (by simp at hlb; omega)
    simp only [parse_array_header_line, hbs, hBE, hBrace, hci, hcondb, hFbe, hmax,
      hColon, hkey, hdropEnd, pyStrip_nil, htakeB, hdropD, hseg, hlt1, hlt2,
      htakeF, hdropJ, hparse, eq_self_iff_true, if_true]


/-! C3 infrastructure: combined assembly and per-shape key facts. -/

theorem C3_assembly_both (K D : Str) (delim : Char) (krec : Option Str) (len : Nat)
    (frec : Option (List Str)) (F : Str)
    (hbsA : ∀ rest, headerBracketStart (K ++ '[' :: rest) = some K.length)
    (hkeyA : ∀ rest, headerParseKey (K ++ '[' :: rest) K.length = .ok krec)
    (hD : ']' ∉ D)
    (hseg : parse_bracket_segment D delim = some (len, delim))
    (hF : (F = [] ∧ frec = none) ∨
      (∃ J fs, F = '{' :: (J ++ ['}']) ∧ '}' ∉ J ∧
        parseFieldList (parse_delimited_values J delim) = .ok fs ∧ frec = some fs)) :
    parse_array_header_line (K ++ '[' :: ((D ++ [']']) ++ F ++ [':'])) delim
      = .ok (some ({ key := krec, length := len, delimiter := delim,
                     fields := frec }, none)) := by
  rcases hF with ⟨rfl, rfl⟩ | ⟨J, fs, rfl, hJ, hparse, rfl⟩
  · have hsh : (K ++ '[' :: ((D ++ [']']) ++ ([] : Str) ++ [':']) : Str)
        = K ++ '[' :: (D ++ [']', ':']) := by simp
    rw [hsh]
    exact header_assembly_nofields K D delim krec len (hbsA _) (hkeyA _) hD hseg
  · have hsh : (K ++ '[' :: ((D ++ [']']) ++ ('{' :: (J ++ ['}'])) ++ [':']) : Str)
        = K ++ '[' :: (D ++ ']' :: '{' :: (J ++ ['}', ':'])) := by simp
    rw [hsh]
    exact header_assembly_fields K D J delim krec len fs (hbsA _) (hkeyA _) hD hJ
      hseg hparse

theorem headerBracketStart_nil_key :
    ∀ rest, headerBracketStart (([] : Str) ++ '[' :: rest)
      = some (([] : Str)).length := by
  intro rest
  simpa using headerBracketStart_nokey rest

theorem headerParseKey_nil_key :
    ∀ rest, headerParseKey (([] : Str) ++ '[' :: rest) (([] : Str)).length
      = .ok none := by
  intro rest
  simpa using headerParseKey_zero ('[' :: rest)

theorem headerBracketStart_encode_key (k : Str) :
    ∀ rest, headerBracketStart (encode_key k ++ '[' :: rest)
      = some (encode_key k).length := by
  intro rest
  cases hv : is_valid_unquoted_key k
  · rw [encode_key_quoted k hv, headerBracketStart_quoted]
    congr 1
    simp only [List.length_append, List.length_cons, List.length_nil]
  · rw [encode_key_unquoted k hv]
    exact headerBracketStart_unquoted k rest hv

theorem headerParseKey_encode_key (k : Str) :
    ∀ rest, headerParseKey (encode_key k ++ '[' :: rest) (encode_key k).length
      = .ok (some k) := by
  intro rest
  cases hv : is_valid_unquoted_key k
  · rw [encode_key_quoted k hv]
    rw [show (('"' :: escape_string k ++ ['"'] : Str)).length
          = (escape_string k).length + 2 from by
        simp only [List.length_append, List.length_cons, List.length_nil]]
    exact headerParseKey_quoted k ('[' :: rest)
  · rw [encode_key_unquoted k hv]
    exact headerParseKey_unquoted k ('[' :: rest) hv

theorem fields_block_clean (delim : Char)
    (hd : delim = ',' ∨ delim = '\t' ∨ delim = '|') (fs : List Str) (hfs : fs ≠ [])
    (hbr : ∀ f ∈ fs, '}' ∉ f) :
    '}' ∉ joinSep delim (fs.map encode_key) ∧
    parseFieldList
        (parse_delimited_values (joinSep delim (fs.map encode_key)) delim)
      = .ok fs := by
  have hq : delim ≠ '"' := by rcases hd with rfl | rfl | rfl <;> decide
  constructor
  · intro hm
    rcases mem_joinSep delim _ '}' hm with heq | ⟨t, ht, hmt⟩
    · rcases hd with rfl | rfl | rfl <;> exact absurd heq (by decide)
    · rcases List.mem_map.mp ht with ⟨f, hf, rfl⟩
      exact not_mem_encode_key_brace f (hbr f hf) hmt
  · have hts : ∀ t ∈ fs.map encode_key,
        (∃ k2, t = '"' :: escape_string k2 ++ ['"']) ∨
          (∀ c ∈ t, c ≠ '"' ∧ c ≠ delim) := by
      intro t ht
      rcases List.mem_map.mp ht with ⟨f, hf, rfl⟩
      exact field_token_clean delim hd f
    have hstrip : ∀ t ∈ fs.map encode_key, pyStrip t = t := by
      intro t ht
      rcases List.mem_map.mp ht with ⟨f, hf, rfl⟩
      exact pyStrip_encode_key f
    have hnil : ∀ t ∈ fs.map encode_key, t ≠ [] := by
      intro t ht
      rcases List.mem_map.mp ht with ⟨f, hf, rfl⟩
      exact encode_key_ne_nil f
    have hne : fs.map encode_key ≠ [] := by
      cases fs with
      | nil => exact absurd rfl hfs
      | cons a l => simp
    rw [parse_delimited_values_join delim hq (fs.map encode_key) hts hstrip hnil hne]
    exact parseFieldList_encode fs

/-- C3 (amended): for every length, every delimiter among comma, tab and pipe,
every optional key, and every optional field list in which no field name
contains a closing brace, parsing the header line produced by `format_header`
(with the same configured delimiter) recovers exactly that length, that
delimiter, that key (an empty key reads back as no key) and that field list
(an empty field list is formatted identically to no field list and reads back
as absent), with no inline payload after the colon.  Without the no-brace
restriction the claim is false, see `C3_counterexample_brace_in_field`. -/
theorem C3_amended_header_inverse
    (length : Nat) (delimiter : Char) (key : Option Str)
    (fields : Option (List Str))
    (hdelim : delimiter = ',' ∨ delimiter = '\t' ∨ delimiter = '|')
    (hfields : ∀ fs, fields = some fs → ∀ f ∈ fs, '}' ∉ f) :
    parse_array_header_line (format_header length key fields delimiter) delimiter
      = .ok (some ({ key := key.bind (fun k => if k = [] then none else some k),
                     length := length, delimiter := delimiter,
                     fields := fields.bind
                       (fun fs => if fs = [] then none else some fs) }, none)) := by
  have hseg : parse_bracket_segment
      (natToDec length ++ (if delimiter ≠ DEFAULT_DELIMITER then [delimiter] else []))
      delimiter = some (length, delimiter) := by
    rcases hdelim with rfl | rfl | rfl
    · rw [if_neg (by decide)]
      simpa using parse_bracket_segment_comma length
    · rw [if_pos (by decide)]
      exact parse_bracket_segment_suffix length '\t' (Or.inl rfl)
    · rw [if_pos (by decide)]
      exact parse_bracket_segment_suffix length '|' (Or.inr rfl)
  have hDne : ']' ∉ (natToDec length
      ++ (if delimiter ≠ DEFAULT_DELIMITER then [delimiter] else [])) := by
    intro hm
    rcases List.mem_append.mp hm with hm1 | hm2
    · exact (isDig_ne_special ']' (natToDec_isDig length ']' hm1)).2.1 rfl
    · revert hm2
      rcases hdelim with rfl | rfl | rfl <;> decide
  rcases key with _ | k
  · rcases fields with _ | fs
    · have hC : format_header length none none delimiter
          = ([] : Str) ++ '[' :: (((natToDec length
              ++ (if delimiter ≠ DEFAULT_DELIMITER then [delimiter] else []))
              ++ [']']) ++ ([] : Str) ++ [':']) := by
        simp [format_header]
      rw [hC]
      exact C3_assembly_both [] _ delimiter none length none []
        headerBracketStart_nil_key headerParseKey_nil_key hDne hseg
        (Or.inl ⟨rfl, rfl⟩)
    · cases fs with
      | nil =>
        rw [show (some ([] : List Str)).bind
              (fun fs2 => if fs2 = [] then none else some fs2) = none from by simp]
        have hC : format_header length none (some []) delimiter
            = ([] : Str) ++ '[' :: (((natToDec length
                ++ (if delimiter ≠ DEFAULT_DELIMITER then [delimiter] else []))
                ++ [']']) ++ ([] : Str) ++ [':']) := by
          simp [format_header]
        rw [hC]
        exact C3_assembly_both [] _ delimiter none length none []
          headerBracketStart_nil_key headerParseKey_nil_key hDne hseg
          (Or.inl ⟨rfl, rfl⟩)
      | cons f0 fs2 =>
        rw [show (some (f0 :: fs2)).bind
              (fun fs3 => if fs3 = [] then none else some fs3)
              = some (f0 :: fs2) from by simp]
        obtain ⟨hJ, hparse⟩ := fields_block_clean delimiter hdelim (f0 :: fs2)
          (by simp) (hfields _ rfl)
        have hC : format_header length none (some (f0 :: fs2)) delimiter
            = ([] : Str) ++ '[' :: (((natToDec length
                ++ (if delimiter ≠ DEFAULT_DELIMITER then [delimiter] else []))
                ++ [']'])
                ++ ('{' :: (joinSep delimiter ((f0 :: fs2).map encode_key) ++ ['}']))
                ++ [':']) := by
          simp [format_header]
        rw [hC]
        exact C3_assembly_both [] _ delimiter none length (some (f0 :: fs2))
          ('{' :: (joinSep delimiter ((f0 :: fs2).map encode_key) ++ ['}']))
          headerBracketStart_nil_key headerParseKey_nil_key hDne hseg
          (Or.inr ⟨joinSep delimiter ((f0 :: fs2).map encode_key), f0 :: fs2,
            rfl, hJ, hparse, rfl⟩)
  · by_cases hk : k = []
    · subst hk
      rw [show (some ([] : Str)).bind
            (fun k2 => if k2 = [] then none else some k2) = none from by simp]
      rcases fields with _ | fs
      · have hC : format_header length (some []) none delimiter
            = ([] : Str) ++ '[' :: (((natToDec length
                ++ (if delimiter ≠ DEFAULT_DELIMITER then [delimiter] else []))
                ++ [']']) ++ ([] : Str) ++ [':']) := by
          simp [format_header]
        rw [hC]
        exact C3_assembly_both [] _ delimiter none length none []
          headerBracketStart_nil_key headerParseKey_nil_key hDne hseg
          (Or.inl ⟨rfl, rfl⟩)
      · cases fs with
        | nil =>
          rw [show (some ([] : List Str)).bind
                (fun fs2 => if fs2 = [] then none else some fs2) = none from by simp]
          have hC : format_header length (some []) (some []) delimiter
              = ([] : Str) ++ '[' :: (((natToDec length
                  ++ (if delimiter ≠ DEFAULT_DELIMITER then [delimiter] else []))
                  ++ [']']) ++ ([] : Str) ++ [':']) := by
            simp [format_header]
          rw [hC]
          exact C3_assembly_both [] _ delimiter none length none []
            headerBracketStart_nil_key headerParseKey_nil_key hDne hseg
            (Or.inl ⟨rfl, rfl⟩)
        | cons f0 fs2 =>
          rw [show (some (f0 :: fs2)).bind
                (fun fs3 => if fs3 = [] then none else some fs3)
                = some (f0 :: fs2) from by simp]
          obtain ⟨hJ, hparse⟩ := fields_block_clean delimiter hdelim (f0 :: fs2)
            (by simp) (hfields _ rfl)
          have hC : format_header length (some []) (some (f0 :: fs2)) delimiter
              = ([] : Str) ++ '[' :: (((natToDec length
                  ++ (if delimiter ≠ DEFAULT_DELIMITER then [delimiter] else []))
                  ++ [']'])
                  ++ ('{' :: (joinSep delimiter ((f0 :: fs2).map encode_key)
                      ++ ['}']))
                  ++ [':']) := by
            simp [format_header]
          rw [hC]
          exact C3_assembly_both [] _ delimiter none length (some (f0 :: fs2))
            ('{' :: (joinSep delimiter ((f0 :: fs2).map encode_key) ++ ['}']))
            headerBracketStart_nil_key headerParseKey_nil_key hDne hseg
            (Or.inr ⟨joinSep delimiter ((f0 :: fs2).map encode_key), f0 :: fs2,
              rfl, hJ, hparse, rfl⟩)
    · rw [show (some k).bind (fun k2 => if k2 = [] then none else some k2)
            = some k from by simp [hk]]
      rcases fields with _ | fs
      · have hC : format_header length (some k) none delimiter
            = encode_key k ++ '[' :: (((natToDec length
                ++ (if delimiter ≠ DEFAULT_DELIMITER then [delimiter] else []))
                ++ [']']) ++ ([] : Str) ++ [':']) := by
          simp [format_header, hk]
        rw [hC]
        exact C3_assembly_both (encode_key k) _ delimiter (some k) length none []
          (headerBracketStart_encode_key k) (headerParseKey_encode_key k) hDne hseg
          (Or.inl ⟨rfl, rfl⟩)
      · cases fs with
        | nil =>
          rw [show (some ([] : List Str)).bind
                (fun fs2 => if fs2 = [] then none else some fs2) = none from by simp]
          have hC : format_header length (some k) (some []) delimiter
              = encode_key k ++ '[' :: (((natToDec length
                  ++ (if delimiter ≠ DEFAULT_DELIMITER then [delimiter] else []))
                  ++ [']']) ++ ([] : Str) ++ [':']) := by
            simp [format_header, hk]
          rw [hC]
          exact C3_assembly_both (encode_key k) _ delimiter (some k) length none []
            (headerBracketStart_encode_key k) (headerParseKey_encode_key k) hDne
            hseg (Or.inl ⟨rfl, rfl⟩)
        | cons f0 fs2 =>
          rw [show (some (f0 :: fs2)).bind
                (fun fs3 => if fs3 = [] then none else some fs3)
                = some (f0 :: fs2) from by simp]
          obtain ⟨hJ, hparse⟩ := fields_block_clean delimiter hdelim (f0 :: fs2)
            (by simp) (hfields _ rfl)
          have hC : format_header length (some k) (some (f0 :: fs2)) delimiter
              = encode_key k ++ '[' :: (((natToDec length
                  ++ (if delimiter ≠ DEFAULT_DELIMITER then [delimiter] else []))
                  ++ [']'])
                  ++ ('{' :: (joinSep delimiter ((f0 :: fs2).map encode_key)
                      ++ ['}']))
                  ++ [':']) := by
            simp [format_header, hk]
          rw [hC]
          exact C3_assembly_both (encode_key k) _ delimiter (some k) length
            (some (f0 :: fs2))
            ('{' :: (joinSep delimiter ((f0 :: fs2).map encode_key) ++ ['}']))
            (headerBracketStart_encode_key k) (headerParseKey_encode_key k) hDne
            hseg (Or.inr ⟨joinSep delimiter ((f0 :: fs2).map encode_key),
              f0 :: fs2, rfl, hJ, hparse, rfl⟩)

theorem C3_amended_header_inverse_witness :
    parse_array_header_line
        (format_header 2 (some ['i', 'd']) (some [['a'], ['b']]) ',') ','
      = .ok (some ({ key := (some (['i', 'd'] : Str)).bind
                       (fun k => if k = [] then none else some k),
                     length := 2, delimiter := ',',
                     fields := (some ([['a'], ['b']] : List Str)).bind
                       (fun fs => if fs = [] then none else some fs) }, none)) :=
  C3_amended_header_inverse 2 ',' (some ['i', 'd']) (some [['a'], ['b']])
    (Or.inl rfl) (by intro fs hfs; cases hfs; decide)

end PyToon
